import Mathlib

/-!
# Car Wars engine: particle emitter, vehicle damage and collider configuration

A shallow embedding of

* `Engine/Components/ParticleEmitterComponent.cpp` (particle pool: `AddParticle`, `Emit`,
  `Update`, `Sort`, `SetDirections`, `SetEntity`),
* `Engine/Components/Colliders/Collider.cpp` (the configuration constructor),
* `Engine/Components/RigidbodyComponents/VehicleComponent.h` (declared defaults of the
  gameplay state).

Scalars (`float`, `double`, `Time`) are values of a type `F` that carries only the arithmetic
and comparison operations the code uses; the definitions assume no law about them.  Theorems
that need laws of arithmetic state them by taking `F` to be a linear ordered field; what the
code does with infinities and NaN is evaluated on the scalars `Ieee`.  The transcendental
functions of `<math.h>` and glm are supplied through `GlmMath`.
-/

namespace CarWars

/-! ## glm vectors and quaternions -/

/-- The type `glm::vec3`. -/
structure Vec3 (F : Type) where
  x : F
  y : F
  z : F
deriving DecidableEq, Repr

/-- The type `glm::vec4`. -/
structure Vec4 (F : Type) where
  x : F
  y : F
  z : F
  w : F
deriving DecidableEq, Repr

/-- The type `glm::quat`. -/
structure Quat (F : Type) where
  w : F
  x : F
  y : F
  z : F
deriving DecidableEq, Repr

/-- The type `glm::mat4`, stored as its four columns. -/
structure Mat4 (F : Type) where
  c0 : Vec4 F
  c1 : Vec4 F
  c2 : Vec4 F
  c3 : Vec4 F
deriving DecidableEq, Repr

/-- Scalar functions of `<math.h>` and glm that the emitter calls (`glm::radians` among them),
together with the constant `M_PI` and the matrix inverse `glm::inverse`. -/
structure GlmMath (F : Type) where
  sqrt : F → F
  inversesqrt : F → F
  sin : F → F
  cos : F → F
  abs : F → F
  radians : F → F
  M_PI : F
  inverse : Mat4 F → Mat4 F

section Glm

variable {F : Type} [Add F] [Sub F] [Mul F] [Div F] [Zero F] [One F] [OfNat F 2]

namespace Vec3

/-- Componentwise `operator+` of `glm::vec3`. -/
def add (a b : Vec3 F) : Vec3 F := ⟨a.x + b.x, a.y + b.y, a.z + b.z⟩

/-- Componentwise `operator-` of `glm::vec3`. -/
def sub (a b : Vec3 F) : Vec3 F := ⟨a.x - b.x, a.y - b.y, a.z - b.z⟩

/-- Componentwise `operator*` of two `glm::vec3`. -/
def mul (a b : Vec3 F) : Vec3 F := ⟨a.x * b.x, a.y * b.y, a.z * b.z⟩

/-- The product `vec3 * scalar`. -/
def scale (a : Vec3 F) (s : F) : Vec3 F := ⟨a.x * s, a.y * s, a.z * s⟩

/-- The product `scalar * vec3`. -/
def lscale (s : F) (a : Vec3 F) : Vec3 F := ⟨s * a.x, s * a.y, s * a.z⟩

/-- The function `glm::dot` on `vec3`. -/
def dot (a b : Vec3 F) : F := a.x * b.x + a.y * b.y + a.z * b.z

/-- The function `glm::cross`. -/
def cross (a b : Vec3 F) : Vec3 F :=
  ⟨a.y * b.z - b.y * a.z, a.z * b.x - b.z * a.x, a.x * b.y - b.x * a.y⟩

/-- The function `glm::length`: `sqrt(dot(v, v))`. -/
def length (m : GlmMath F) (v : Vec3 F) : F := m.sqrt (dot v v)

/-- The function `glm::distance`: `length(p1 - p0)`. -/
def distance (m : GlmMath F) (p0 p1 : Vec3 F) : F := length m (sub p1 p0)

/-- The function `glm::normalize`: `v * inversesqrt(dot(v, v))`. -/
def normalize (m : GlmMath F) (v : Vec3 F) : Vec3 F := scale v (m.inversesqrt (dot v v))

end Vec3

/-- The function `glm::mix(x, y, a)` on scalars: `x * (1 - a) + y * a`. -/
def mix (x y a : F) : F := x * (1 - a) + y * a

/-- The function `glm::angleAxis(angle, v)`: the axis is used as given, it is not normalised. -/
def angleAxis (m : GlmMath F) (angle : F) (v : Vec3 F) : Quat F :=
  let s := m.sin (angle * (1 / 2))
  let a := Vec3.scale v s
  ⟨m.cos (angle * (1 / 2)), a.x, a.y, a.z⟩

namespace Quat

/-- The Hamilton product `p * q` of `glm::quat`. -/
def mul (p q : Quat F) : Quat F :=
  ⟨p.w * q.w - p.x * q.x - p.y * q.y - p.z * q.z,
   p.w * q.x + p.x * q.w + p.y * q.z - p.z * q.y,
   p.w * q.y + p.y * q.w + p.z * q.x - p.x * q.z,
   p.w * q.z + p.z * q.w + p.x * q.y - p.y * q.x⟩

/-- The product `quat * vec3` of glm: `v + ((uv * q.w) + uuv) * 2` with
`uv = cross(q.xyz, v)` and `uuv = cross(q.xyz, uv)`. -/
def rotate (q : Quat F) (v : Vec3 F) : Vec3 F :=
  let quatVector : Vec3 F := ⟨q.x, q.y, q.z⟩
  let uv := Vec3.cross quatVector v
  let uuv := Vec3.cross quatVector uv
  Vec3.add v (Vec3.scale (Vec3.add (Vec3.scale uv q.w) uuv) 2)

/-- The squared norm `w * w + x * x + y * y + z * z` of a quaternion. -/
def normSq (q : Quat F) : F := q.w * q.w + q.x * q.x + q.y * q.y + q.z * q.z

end Quat

/-- The product `mat4 * vec4` of glm (column-major). -/
def Mat4.mulVec (a : Mat4 F) (v : Vec4 F) : Vec4 F :=
  ⟨a.c0.x * v.x + a.c1.x * v.y + a.c2.x * v.z + a.c3.x * v.w,
   a.c0.y * v.x + a.c1.y * v.y + a.c2.y * v.z + a.c3.y * v.w,
   a.c0.z * v.x + a.c1.z * v.y + a.c2.z * v.z + a.c3.z * v.w,
   a.c0.w * v.x + a.c1.w * v.y + a.c2.w * v.z + a.c3.w * v.w⟩

end Glm

/-- The laws of exact real arithmetic for the functions of the math library: `sqrt` is the
non-negative square root, `inversesqrt` its reciprocal, `sin` and `cos` lie on the unit circle
and `abs` vanishes at 0. -/
structure GlmMath.Exact {F : Type} [LinearOrderedField F] (m : GlmMath F) : Prop where
  sqrt_nonneg : ∀ x, 0 ≤ x → 0 ≤ m.sqrt x
  sqrt_mul_self : ∀ x, 0 ≤ x → m.sqrt x * m.sqrt x = x
  inversesqrt_mul_sqrt : ∀ x, 0 < x → m.inversesqrt x * m.sqrt x = 1
  sin_sq_add_cos_sq : ∀ t, m.sin t * m.sin t + m.cos t * m.cos t = 1
  abs_zero : m.abs 0 = 0

/-! ## The particle emitter -/

/-- A particle of the pool (`struct Particle`): position, velocity and age in seconds. -/
structure Particle (F : Type) where
  position : Vec3 F
  velocity : Vec3 F
  lifetimeSeconds : F
deriving DecidableEq, Repr

/-- What the emitter uses of the class `Transform`, kept abstract in the type `T` of
transforms: the three queries, the static axes `UP` and `RIGHT`, and the assignment of a
parent. -/
structure TransformApi (F T : Type) where
  GetForward : T → Vec3 F
  GetGlobalPosition : T → Vec3 F
  GetTransformationMatrix : T → Mat4 F
  setParent : T → T → T
  UP : Vec3 F
  RIGHT : Vec3 F

/-- The surroundings of the emitter code: the math library, the `Transform` class, and the
constants `MAX_PARTICLES` (a macro of the emitter's header) and `RAND_MAX`. -/
structure Env (F T : Type) where
  glm : GlmMath F
  tr : TransformApi F T
  MAX_PARTICLES : Nat
  RAND_MAX : Nat

/-- The frame-global clock `StateManager`: the time of the current frame and the frame delta,
both in seconds. -/
structure StateManager (F : Type) where
  globalTime : F
  deltaTime : F

/-- The simulation-relevant fields of `ParticleEmitterComponent` (the texture, colour, scale and
sprite-sheet parameters and the graphics buffer handles are read by the renderer only). -/
structure ParticleEmitterComponent (F T : Type) where
  transform : T
  emitOnSpawn : Nat
  emitCount : Nat
  emitConeMinAngle : F
  emitConeMaxAngle : F
  emitScale : Vec3 F
  lockedToEntity : Bool
  initialSpeed : F
  acceleration : Vec3 F
  lifetime : F
  spawnRate : F
  nextSpawn : F
  particles : List (Particle F)

/-- The state of the C library generator: the results of the calls to `rand()` still to come. -/
abbrev RandStream := Nat → Nat

/-- One call of `rand()`: the next value of the stream, and the stream after it. -/
def rand (s : RandStream) : Nat × RandStream := (s 0, fun k => s (k + 1))

section Emitter

variable {F T : Type} [Add F] [Sub F] [Mul F] [Div F] [Zero F] [One F] [OfNat F 2] [NatCast F]
  [LT F] [LE F] [DecidableEq F] [DecidableRel (LT.lt : F → F → Prop)]
  [DecidableRel (LE.le : F → F → Prop)]

/-- The function `UnitRand`: `float(rand()) / float(RAND_MAX)`. -/
def UnitRand (env : Env F T) (s : RandStream) : F × RandStream :=
  let r := rand s
  ((r.1 : F) / (env.RAND_MAX : F), r.2)

/-- The function `UnitRandNegative`: `UnitRand() * 2 - 1`. -/
def UnitRandNegative (env : Env F T) (s : RandStream) : F × RandStream :=
  let u := UnitRand env s
  (u.1 * 2 - 1, u.2)

namespace ParticleEmitterComponent

/-- The method `GetParticleCount`: `particles.size()`. -/
def GetParticleCount (e : ParticleEmitterComponent F T) : Nat := e.particles.length

/-- The method `AddParticle(p, v)`. -/
def AddParticle (env : Env F T) (e : ParticleEmitterComponent F T) (p v : Vec3 F) :
    ParticleEmitterComponent F T :=
  if e.GetParticleCount ≥ env.MAX_PARTICLES then e
  else
    let particle : Particle F :=
      { position := if e.lockedToEntity then p
                    else Vec3.add p (env.tr.GetGlobalPosition e.transform)
        velocity := v
        lifetimeSeconds := 0 }
    { e with particles := e.particles ++ [particle] }

/-- The basis vector `cross` that `Emit` computes before its loop:
`normalize(cross(UP, forward))`, replaced by `RIGHT` when `abs(length(cross)) == 0`. -/
def emitCross (env : Env F T) (forward : Vec3 F) : Vec3 F :=
  let cross := Vec3.normalize env.glm (Vec3.cross env.tr.UP forward)
  if env.glm.abs (Vec3.length env.glm cross) = 0 then env.tr.RIGHT else cross

/-- The direction of one emitted particle: `normalize(q * forward)` with
`q = angleAxis(fAngle, forward) * angleAxis(cAngle, cross)`. -/
def emitDirection (env : Env F T) (forward cross : Vec3 F) (fAngle cAngle : F) : Vec3 F :=
  let qAroundF := angleAxis env.glm fAngle forward
  let qAroundC := angleAxis env.glm cAngle cross
  let q := Quat.mul qAroundF qAroundC
  Vec3.normalize env.glm (Quat.rotate q forward)

/-- The local spawn offset of one emitted particle:
`emitScale * vec3(UnitRandNegative(), UnitRandNegative(), UnitRandNegative())`; the three draws
are taken from the stream from left to right. -/
def emitLocalPosition (env : Env F T) (e : ParticleEmitterComponent F T) (s : RandStream) :
    Vec3 F × RandStream :=
  let r1 := UnitRandNegative env s
  let r2 := UnitRandNegative env r1.2
  let r3 := UnitRandNegative env r2.2
  (Vec3.mul e.emitScale ⟨r1.1, r2.1, r3.1⟩, r3.2)

/-- One iteration of the loop of `Emit`. -/
def emitStep (env : Env F T) (forward cross : Vec3 F) (e : ParticleEmitterComponent F T)
    (s : RandStream) : ParticleEmitterComponent F T × RandStream :=
  let u1 := UnitRand env s
  let fAngle := u1.1 * env.glm.M_PI * 2
  let u2 := UnitRand env u1.2
  let cAngle := mix e.emitConeMinAngle e.emitConeMaxAngle u2.1
  let direction := emitDirection env forward cross fAngle cAngle
  let lp := emitLocalPosition env e u2.2
  let position := lp.1
  (AddParticle env e position (Vec3.scale direction e.initialSpeed), lp.2)

/-- The loop `for (size_t i = 0; i < count; ++i)` of `Emit`, by the number of iterations left. -/
def emitLoop (env : Env F T) (forward cross : Vec3 F) :
    Nat → ParticleEmitterComponent F T → RandStream → ParticleEmitterComponent F T × RandStream
  | 0, e, s => (e, s)
  | n + 1, e, s =>
    let r := emitStep env forward cross e s
    emitLoop env forward cross n r.1 r.2

/-- The method `Emit(count)`. -/
def Emit (env : Env F T) (e : ParticleEmitterComponent F T) (count : Nat) (s : RandStream) :
    ParticleEmitterComponent F T × RandStream :=
  let forward := env.tr.GetForward e.transform
  let cross := emitCross env forward
  emitLoop env forward cross count e s

/-- The body of the `else` branch of the loop of `Update`: the velocity is advanced first, the
position is advanced with the new velocity, then the age grows by `delta`. -/
def integrate (delta : F) (acceleration : Vec3 F) (particle : Particle F) : Particle F :=
  let velocity := Vec3.add particle.velocity (Vec3.lscale delta acceleration)
  let position := Vec3.add particle.position (Vec3.lscale delta velocity)
  { position := position
    velocity := velocity
    lifetimeSeconds := particle.lifetimeSeconds + delta }

/-- The loop of `Update` over the vector `particles`, with the iterator as an index `i`:
an expired particle is erased in place (the iterator then designates the element that followed
it), any other particle is integrated and the iterator moves on. -/
def updateLoop (delta lifetime : F) (acceleration : Vec3 F) (i : Nat)
    (particles : List (Particle F)) : List (Particle F) :=
  if h : i < particles.length then
    let particle := particles.get ⟨i, h⟩
    if particle.lifetimeSeconds > lifetime then
      updateLoop delta lifetime acceleration i (particles.eraseIdx i)
    else
      updateLoop delta lifetime acceleration (i + 1)
        (particles.set i (integrate delta acceleration particle))
  else particles
termination_by particles.length - i
decreasing_by
  all_goals simp_wf
  · rw [List.length_eraseIdx, if_pos h]
    omega
  · omega

/-- The aging phase of `Update`: the loop run from `particles.begin()`. -/
def age (sm : StateManager F) (e : ParticleEmitterComponent F T) :
    ParticleEmitterComponent F T :=
  { e with particles := updateLoop sm.deltaTime e.lifetime e.acceleration 0 e.particles }

/-- The method `Update`: the aging loop, then the spawn step
`if (spawnRate > 0.0 && globalTime >= nextSpawn)`. -/
def Update (env : Env F T) (sm : StateManager F) (e : ParticleEmitterComponent F T)
    (s : RandStream) : ParticleEmitterComponent F T × RandStream :=
  let e1 := age sm e
  if e1.spawnRate > 0 ∧ sm.globalTime ≥ e1.nextSpawn then
    Emit env { e1 with nextSpawn := sm.globalTime + e1.spawnRate } e1.emitCount s
  else (e1, s)

end ParticleEmitterComponent

/-- Insertion of `x` into a list under the comparator `comp` (`comp a b` reads "a goes before
b"): `x` is placed in front of the first element it goes before. -/
def sortInsert {α : Type} (comp : α → α → Bool) (x : α) : List α → List α
  | [] => [x]
  | y :: ys => if comp x y then x :: y :: ys else y :: sortInsert comp x ys

/-- The library call `std::sort(first, last, comp)`, as an insertion sort driven by the same
comparator.  The standard leaves the order of equivalent elements open; every property proved
of the sorted pool below holds of any comparison sort. -/
def stdSort {α : Type} (comp : α → α → Bool) : List α → List α
  | [] => []
  | x :: xs => sortInsert comp x (stdSort comp xs)

namespace ParticleEmitterComponent

/-- The local `localCameraPosition` of `Sort`:
`lockedToEntity ? inverse(transform.GetTransformationMatrix()) * vec4(cameraPosition, 1) :
cameraPosition`, the `vec4` being cut to its first three components. -/
def localCameraPosition (env : Env F T) (e : ParticleEmitterComponent F T)
    (cameraPosition : Vec3 F) : Vec3 F :=
  if e.lockedToEntity then
    let v := Mat4.mulVec (env.glm.inverse (env.tr.GetTransformationMatrix e.transform))
      ⟨cameraPosition.x, cameraPosition.y, cameraPosition.z, 1⟩
    ⟨v.x, v.y, v.z⟩
  else cameraPosition

/-- The distance `length(p.position - c)` that the comparator of `Sort` compares. -/
def cameraDistance (env : Env F T) (c : Vec3 F) (p : Particle F) : F :=
  Vec3.length env.glm (Vec3.sub p.position c)

/-- The comparator of `Sort`: `length(lhs.position - c) > length(rhs.position - c)`. -/
def sortComp (env : Env F T) (c : Vec3 F) (lhs rhs : Particle F) : Bool :=
  decide (cameraDistance env c lhs > cameraDistance env c rhs)

/-- The method `Sort(cameraPosition)`, under the name `SortParticles` since `Sort` is reserved
(the upload of the pool to the vertex buffer, which ends it, leaves the emitter as it is). -/
def SortParticles (env : Env F T) (e : ParticleEmitterComponent F T) (cameraPosition : Vec3 F) :
    ParticleEmitterComponent F T :=
  let c := localCameraPosition env e cameraPosition
  { e with particles := stdSort (sortComp env c) e.particles }

/-- The method `SetDirections(direction)`. -/
def SetDirections (env : Env F T) (e : ParticleEmitterComponent F T) (direction : Vec3 F) :
    ParticleEmitterComponent F T :=
  { e with particles := e.particles.map fun p =>
      { p with velocity := Vec3.scale direction (Vec3.length env.glm p.velocity) } }

/-- The method `SetEntity(_entity)`: the emitter's transform gets the entity's transform as
parent, then `Emit(emitOnSpawn)` runs. -/
def SetEntity (env : Env F T) (e : ParticleEmitterComponent F T) (entityTransform : T)
    (s : RandStream) : ParticleEmitterComponent F T × RandStream :=
  Emit env { e with transform := env.tr.setParent e.transform entityTransform } e.emitOnSpawn s

/-- The method `SetEmitScale`. -/
def SetEmitScale (e : ParticleEmitterComponent F T) (emitScale : Vec3 F) :
    ParticleEmitterComponent F T := { e with emitScale := emitScale }

/-- The method `SetEmitCount`. -/
def SetEmitCount (e : ParticleEmitterComponent F T) (emitCount : Nat) :
    ParticleEmitterComponent F T := { e with emitCount := emitCount }

/-- The method `SetLifetime`. -/
def SetLifetime (e : ParticleEmitterComponent F T) (lifetime : F) :
    ParticleEmitterComponent F T := { e with lifetime := lifetime }

/-- The method `SetSpawnRate`. -/
def SetSpawnRate (e : ParticleEmitterComponent F T) (spawnRate : F) :
    ParticleEmitterComponent F T := { e with spawnRate := spawnRate }

end ParticleEmitterComponent

/-- The values the constructor of the emitter reads from its configuration document (each one
the result of a get-with-default read), and the transform built from the document. -/
structure EmitterData (F T : Type) where
  transform : T
  EmitOnSpawn : Nat
  EmitCount : Nat
  EmitConeMinAngle : F
  EmitConeMaxAngle : F
  EmitScale : Vec3 F
  LockedToEntity : Bool
  InitialSpeed : F
  Acceleration : Vec3 F
  Lifetime : F
  SpawnRate : F

/-- The constructor `ParticleEmitterComponent(data)`: the cone angles are converted to radians,
the first spawn is scheduled one `spawnRate` after the current time, and the pool starts empty. -/
def ParticleEmitterComponent.new (env : Env F T) (sm : StateManager F) (data : EmitterData F T) :
    ParticleEmitterComponent F T :=
  { transform := data.transform
    emitOnSpawn := data.EmitOnSpawn
    emitCount := data.EmitCount
    emitConeMinAngle := env.glm.radians data.EmitConeMinAngle
    emitConeMaxAngle := env.glm.radians data.EmitConeMaxAngle
    emitScale := data.EmitScale
    lockedToEntity := data.LockedToEntity
    initialSpeed := data.InitialSpeed
    acceleration := data.Acceleration
    lifetime := data.Lifetime
    spawnRate := data.SpawnRate
    nextSpawn := sm.globalTime + data.SpawnRate
    particles := [] }

/-- A call of one of the methods of the emitter that touch the pool or the parameters `Emit`
and `Update` read. -/
inductive Call (F T : Type) where
  | AddParticle (p v : Vec3 F)
  | Emit (count : Nat)
  | Update (sm : StateManager F)
  | SortParticles (cameraPosition : Vec3 F)
  | SetDirections (direction : Vec3 F)
  | SetEntity (entityTransform : T)
  | SetEmitScale (emitScale : Vec3 F)
  | SetEmitCount (emitCount : Nat)
  | SetLifetime (lifetime : F)
  | SetSpawnRate (spawnRate : F)

/-- The effect of one call on the emitter and on the state of the random generator. -/
def Call.run (env : Env F T) :
    Call F T → ParticleEmitterComponent F T × RandStream →
      ParticleEmitterComponent F T × RandStream
  | .AddParticle p v, (e, s) => (e.AddParticle env p v, s)
  | .Emit count, (e, s) => e.Emit env count s
  | .Update sm, (e, s) => e.Update env sm s
  | .SortParticles cameraPosition, (e, s) => (e.SortParticles env cameraPosition, s)
  | .SetDirections direction, (e, s) => (e.SetDirections env direction, s)
  | .SetEntity entityTransform, (e, s) => e.SetEntity env entityTransform s
  | .SetEmitScale emitScale, (e, s) => (e.SetEmitScale emitScale, s)
  | .SetEmitCount emitCount, (e, s) => (e.SetEmitCount emitCount, s)
  | .SetLifetime lifetime, (e, s) => (e.SetLifetime lifetime, s)
  | .SetSpawnRate spawnRate, (e, s) => (e.SetSpawnRate spawnRate, s)

/-- A sequence of calls, run in order. -/
def runCalls (env : Env F T) (calls : List (Call F T))
    (st : ParticleEmitterComponent F T × RandStream) :
    ParticleEmitterComponent F T × RandStream :=
  calls.foldl (fun acc c => c.run env acc) st

end Emitter

/-! ## Vehicle gameplay state -/

/-- The gameplay fields of `VehicleComponent` that have a declared initial value. -/
structure VehicleComponent (F : Type) where
  speedMultiplier : F
  defenceMultiplier : F
  health : F
  resistance : F
  baseDamage : F
deriving DecidableEq, Repr

section Vehicle

variable {F : Type} [Sub F] [Mul F] [Div F] [Zero F] [One F] [OfNat F 2] [NatCast F]
  [LT F] [DecidableRel (LT.lt : F → F → Prop)]

/-- The member initialisers of the class: `speedMultiplier = 1.f`, `defenceMultiplier = 1.f`,
`health = 1000.f`, `resistance = 0.5f`, `baseDamage = 1.0f`. -/
def VehicleComponent.declared : VehicleComponent F :=
  { speedMultiplier := 1
    defenceMultiplier := 1
    health := ((1000 : Nat) : F)
    resistance := 1 / 2
    baseDamage := 1 }

/-- Modelled from the spec: the body of `VehicleComponent::TakeDamage(damager, damage)`, which
the header only declares.  "Effective damage = `damage × resistance`; subtract from health,
clamp at 0." -/
def VehicleComponent.TakeDamage {W : Type} (v : VehicleComponent F) (_damager : W)
    (damage : F) : VehicleComponent F :=
  let remaining := v.health - damage * v.resistance
  { v with health := if remaining < 0 then 0 else remaining }

end Vehicle

/-! ## Collider configuration -/

/-- A value of a configuration document (`nlohmann::json`). -/
inductive Json where
  | null
  | boolean (b : Bool)
  | number (n : Int)
  | string (s : String)
  | array (items : List Json)
  | object (members : List (String × Json))

/-- A configuration document: a key-value object. -/
abbrev Document := List (String × Json)

/-- The read `data[key]` of a document: the value stored under the key, `null` when the key
is missing. -/
def Document.get (data : Document) (key : String) : Json :=
  (data.lookup key).getD Json.null

/-- Modelled from the spec: the accessor `ContentManager::GetFromJson<std::string>`, whose
implementation is not part of the sources.  "Every field read uses a get-with-default
accessor — missing keys silently fall back to documented defaults, never erroring";
"missing/malformed field: recovered locally via default substitution". -/
def GetFromJson (json : Json) (defaultValue : String) : String :=
  match json with
  | .string s => s
  | _ => defaultValue

/-- What the collider constructor calls outside its own file: the material lookup of the content
manager, the two query-filter setups of `VehicleSceneQuery.h`, the constructor `Transform(data)`
and the default-constructed `PxFilterData`.  `M`, `Q`, `T` are the types of materials, filter
data and transforms. -/
structure ColliderEnv (M Q T : Type) where
  GetPxMaterial : String → M
  setupDrivableSurface : Q → Q
  setupNonDrivableSurface : Q → Q
  newTransform : Document → T
  defaultFilterData : Q

/-- The fields of `Collider` that the configuration constructor sets. -/
structure Collider (M Q T : Type) where
  collisionGroup : String
  material : M
  queryFilterData : Q
  transform : T

/-- The `queryFilterType` string the constructor reads from the document. -/
def Collider.queryFilterType (data : Document) : String :=
  GetFromJson (data.get "QueryFilterType") "DrivableSurface"

/-- The constructor `Collider(nlohmann::json data)`. -/
def Collider.new {M Q T : Type} (env : ColliderEnv M Q T) (data : Document) : Collider M Q T :=
  let collisionGroup := GetFromJson (data.get "CollisionGroup") "Default"
  let material := env.GetPxMaterial (GetFromJson (data.get "Material") "Default.json")
  let queryFilterType := Collider.queryFilterType data
  let queryFilterData :=
    if queryFilterType = "DrivableSurface" then
      env.setupDrivableSurface env.defaultFilterData
    else
      env.setupNonDrivableSurface env.defaultFilterData
  { collisionGroup := collisionGroup
    material := material
    queryFilterData := queryFilterData
    transform := env.newTransform data }

/-! ## Sample instances

Concrete surroundings on which the definitions above can be evaluated: over the rationals with
a rational stand-in for the math library, and over any linear ordered field once the functions
of the math library are supplied. -/

namespace Sample

section Generic

variable {F : Type} [LinearOrderedField F]

/-- A transform reduced to what the emitter asks of it: a forward axis and a global position. -/
structure Pose (F : Type) where
  forward : Vec3 F
  position : Vec3 F

/-- The transform interface of poses, with `UP = (0, 1, 0)` and `RIGHT = (1, 0, 0)`; the
transformation matrix of a pose is the translation to its position. -/
def tr : TransformApi F (Pose F) :=
  { GetForward := fun t => t.forward
    GetGlobalPosition := fun t => t.position
    GetTransformationMatrix := fun t =>
      ⟨⟨1, 0, 0, 0⟩, ⟨0, 1, 0, 0⟩, ⟨0, 0, 1, 0⟩, ⟨t.position.x, t.position.y, t.position.z, 1⟩⟩
    setParent := fun t parent =>
      { forward := t.forward, position := Vec3.add parent.position t.position }
    UP := ⟨0, 1, 0⟩
    RIGHT := ⟨1, 0, 0⟩ }

/-- A math library built from a square root, a sine, a cosine and a value of pi; its matrix
inverse is the inverse of a translation.  In a field `1 / 0` is `0`, so `inversesqrt 0` is `0`
here and not the infinity of floating point: this library stands for the math library only
where no square root of zero is inverted, and `Ieee.math` is the one to use elsewhere. -/
def math (sqrt sin cos : F → F) (pi : F) : GlmMath F :=
  { sqrt := sqrt
    inversesqrt := fun x => 1 / sqrt x
    sin := sin
    cos := cos
    abs := fun x => |x|
    radians := fun d => d * (pi / 180)
    M_PI := pi
    inverse := fun a => { a with c3 := ⟨-a.c3.x, -a.c3.y, -a.c3.z, a.c3.w⟩ } }

/-- Surroundings with the given math library and pool capacity, and `RAND_MAX = 32767`. -/
def env (m : GlmMath F) (maxParticles : Nat) : Env F (Pose F) :=
  { glm := m, tr := tr, MAX_PARTICLES := maxParticles, RAND_MAX := 32767 }

/-- A clock at time 1 with a frame delta of one second. -/
def clock : StateManager F := { globalTime := 1, deltaTime := 1 }

/-- A particle at the origin, at rest, of age `t`. -/
def particle (t : F) : Particle F :=
  { position := ⟨0, 0, 0⟩, velocity := ⟨0, 0, 0⟩, lifetimeSeconds := t }

/-- An emitter at the origin with the given forward axis, cone angles and particles, with emit
scale `(1, 1, 1)`, initial speed 10, lifetime 3 and no periodic spawning. -/
def emitter (forward : Vec3 F) (coneMin coneMax : F) (particles : List (Particle F)) :
    ParticleEmitterComponent F (Pose F) :=
  { transform := { forward := forward, position := ⟨0, 0, 0⟩ }
    emitOnSpawn := 0
    emitCount := 1
    emitConeMinAngle := coneMin
    emitConeMaxAngle := coneMax
    emitScale := ⟨1, 1, 1⟩
    lockedToEntity := false
    initialSpeed := 10
    acceleration := ⟨0, -10, 0⟩
    lifetime := 3
    spawnRate := 0
    nextSpawn := 0
    particles := particles }

end Generic

/-- A square root on the rationals that is exact on squares of rationals. -/
def sqrtQ (q : ℚ) : ℚ := (Nat.sqrt q.num.toNat : ℚ) / (Nat.sqrt q.den : ℚ)

/-- A math library over the rationals: `sin` and `cos` are the rational parametrisation of the
circle. -/
def mathQ : GlmMath ℚ :=
  math sqrtQ (fun t => 2 * t / (1 + t * t)) (fun t => (1 - t * t) / (1 + t * t)) (22 / 7)

/-- Rational surroundings with a pool of at most two particles. -/
def envQ : Env ℚ (Pose ℚ) := env mathQ 2

/-- A rational emitter facing `(0, 0, -1)` that holds the given particles. -/
def emitterQ (particles : List (Particle ℚ)) : ParticleEmitterComponent ℚ (Pose ℚ) :=
  emitter ⟨0, 0, -1⟩ 0 1 particles

/-- The generator whose every draw is `RAND_MAX`. -/
def maxStream : RandStream := fun _ => 32767

/-- Collider surroundings in which filter data is the list of the setups applied to it. -/
def colliderEnv : ColliderEnv String (List String) Unit :=
  { GetPxMaterial := fun name => name
    setupDrivableSurface := fun q => q ++ ["drivable"]
    setupNonDrivableSurface := fun q => q ++ ["non-drivable"]
    newTransform := fun _ => ()
    defaultFilterData := [] }

end Sample

/-! ## The model matrix -/

section ModelMatrix

variable {F T : Type} [Zero F] [One F]

/-- The matrix `glm::mat4(1.f)`: the identity. -/
def Mat4.identity : Mat4 F :=
  ⟨⟨1, 0, 0, 0⟩, ⟨0, 1, 0, 0⟩, ⟨0, 0, 1, 0⟩, ⟨0, 0, 0, 1⟩⟩

/-- The method `GetModelMatrix`: the identity for an emitter that is not locked to its entity
(its particles are stored in world space), the transformation matrix of the emitter otherwise
(its particles are stored relative to the entity). -/
def ParticleEmitterComponent.GetModelMatrix (env : Env F T) (e : ParticleEmitterComponent F T) :
    Mat4 F :=
  if !e.lockedToEntity then Mat4.identity
  else env.tr.GetTransformationMatrix e.transform

end ModelMatrix

/-! ## Scalars with the special values of IEEE 754 -/

/-- A `float` as far as the degenerate cases of the emitter go: a finite value, held exactly as
a rational (rounding is not modelled and the two zeros are one), or one of the special values
infinity, minus infinity and NaN of IEEE 754. -/
inductive Ieee where
  | finite (q : ℚ)
  | posInf
  | negInf
  | nan
deriving DecidableEq

namespace Ieee

/-- Negation: the sign of an infinity flips, NaN stays NaN. -/
def neg : Ieee → Ieee
  | finite q => finite (-q)
  | posInf => negInf
  | negInf => posInf
  | nan => nan

/-- Addition: NaN propagates and `inf + (-inf)` is NaN. -/
def add : Ieee → Ieee → Ieee
  | nan, _ => nan
  | _, nan => nan
  | finite a, finite b => finite (a + b)
  | posInf, negInf => nan
  | negInf, posInf => nan
  | posInf, _ => posInf
  | negInf, _ => negInf
  | finite _, posInf => posInf
  | finite _, negInf => negInf

/-- An infinity with the sign of `a`, or NaN when `a` is zero: the value of `a * inf`. -/
def signedInf (a : ℚ) : Ieee :=
  if a = 0 then nan else if 0 < a then posInf else negInf

/-- Multiplication: NaN propagates and `0 * inf` is NaN. -/
def mul : Ieee → Ieee → Ieee
  | nan, _ => nan
  | _, nan => nan
  | finite a, finite b => finite (a * b)
  | finite a, posInf => signedInf a
  | finite a, negInf => signedInf (-a)
  | posInf, finite b => signedInf b
  | negInf, finite b => signedInf (-b)
  | posInf, posInf => posInf
  | negInf, negInf => posInf
  | posInf, negInf => negInf
  | negInf, posInf => negInf

/-- Division: NaN propagates, `0 / 0` and `inf / inf` are NaN, a non-zero value over zero is
an infinity, and a finite value over an infinity is zero. -/
def div : Ieee → Ieee → Ieee
  | nan, _ => nan
  | _, nan => nan
  | finite a, finite b => if b = 0 then signedInf a else finite (a / b)
  | finite _, posInf => finite 0
  | finite _, negInf => finite 0
  | posInf, finite b => if 0 ≤ b then posInf else negInf
  | negInf, finite b => if 0 ≤ b then negInf else posInf
  | posInf, posInf => nan
  | posInf, negInf => nan
  | negInf, posInf => nan
  | negInf, negInf => nan

/-- The comparison `<`: false as soon as one side is NaN. -/
def blt : Ieee → Ieee → Bool
  | finite a, finite b => decide (a < b)
  | finite _, posInf => true
  | negInf, finite _ => true
  | negInf, posInf => true
  | _, _ => false

/-- The comparison `<=`: false as soon as one side is NaN. -/
def ble : Ieee → Ieee → Bool
  | nan, _ => false
  | _, nan => false
  | finite a, finite b => decide (a ≤ b)
  | negInf, _ => true
  | _, posInf => true
  | _, _ => false

instance : Zero Ieee := ⟨finite 0⟩

instance : One Ieee := ⟨finite 1⟩

instance : OfNat Ieee 2 := ⟨finite 2⟩

instance : NatCast Ieee := ⟨fun n => finite n⟩

instance : Add Ieee := ⟨add⟩

instance : Sub Ieee := ⟨fun a b => add a (neg b)⟩

instance : Mul Ieee := ⟨mul⟩

instance : Div Ieee := ⟨div⟩

instance : LT Ieee := ⟨fun a b => blt a b = true⟩

instance : LE Ieee := ⟨fun a b => ble a b = true⟩

instance : DecidableRel (LT.lt : Ieee → Ieee → Prop) :=
  fun a b => inferInstanceAs (Decidable (blt a b = true))

instance : DecidableRel (LE.le : Ieee → Ieee → Prop) :=
  fun a b => inferInstanceAs (Decidable (ble a b = true))

/-- The square root: NaN for NaN and for negative arguments, infinity for infinity. -/
def sqrt : Ieee → Ieee
  | finite q => if q < 0 then nan else finite (Sample.sqrtQ q)
  | posInf => posInf
  | negInf => nan
  | nan => nan

/-- The absolute value: NaN stays NaN. -/
def abs : Ieee → Ieee
  | finite q => finite |q|
  | posInf => posInf
  | negInf => posInf
  | nan => nan

/-- A function of finite values, extended by NaN to the special values, as `sin` and `cos`
are. -/
def lift (f : ℚ → ℚ) : Ieee → Ieee
  | finite q => finite (f q)
  | _ => nan

/-- The math library on these scalars; `inversesqrt(x)` is `1 / sqrt(x)` as in glm, so that
`inversesqrt(0)` is infinity. -/
def math : GlmMath Ieee :=
  { sqrt := sqrt
    inversesqrt := fun x => 1 / sqrt x
    sin := lift Sample.mathQ.sin
    cos := lift Sample.mathQ.cos
    abs := abs
    radians := fun d => d * (finite (22 / 7) / finite 180)
    M_PI := finite (22 / 7)
    inverse := fun a => { a with c3 := ⟨neg a.c3.x, neg a.c3.y, neg a.c3.z, a.c3.w⟩ } }

/-- The transform interface of poses over these scalars, with `UP = (0, 1, 0)` and
`RIGHT = (1, 0, 0)`. -/
def tr : TransformApi Ieee (Sample.Pose Ieee) :=
  { GetForward := fun t => t.forward
    GetGlobalPosition := fun t => t.position
    GetTransformationMatrix := fun t =>
      ⟨⟨1, 0, 0, 0⟩, ⟨0, 1, 0, 0⟩, ⟨0, 0, 1, 0⟩, ⟨t.position.x, t.position.y, t.position.z, 1⟩⟩
    setParent := fun t parent =>
      { forward := t.forward, position := Vec3.add parent.position t.position }
    UP := ⟨0, 1, 0⟩
    RIGHT := ⟨1, 0, 0⟩ }

/-- Surroundings over these scalars, with a pool of at most two particles. -/
def env : Env Ieee (Sample.Pose Ieee) :=
  { glm := math, tr := tr, MAX_PARTICLES := 2, RAND_MAX := 32767 }

/-- An emitter at the origin with the given forward axis and an empty pool, with cone angles 0
and 1, emit scale `(1, 1, 1)` and initial speed 10. -/
def emitter (forward : Vec3 Ieee) : ParticleEmitterComponent Ieee (Sample.Pose Ieee) :=
  { transform := { forward := forward, position := ⟨0, 0, 0⟩ }
    emitOnSpawn := 0
    emitCount := 1
    emitConeMinAngle := 0
    emitConeMaxAngle := 1
    emitScale := ⟨1, 1, 1⟩
    lockedToEntity := false
    initialSpeed := finite 10
    acceleration := ⟨0, finite (-10), 0⟩
    lifetime := finite 3
    spawnRate := 0
    nextSpawn := 0
    particles := [] }

/-- A clock at time 1 with a frame delta of one second. -/
def clock : StateManager Ieee := { globalTime := finite 1, deltaTime := finite 1 }

/-- The emitter that faces `(0, 1, 0)`, after `AddParticle((0, 0, 0), (0, 0, 0))`, `Emit(1)` and
`Update()`, every draw of `rand()` being `RAND_MAX`. -/
def upwardAfterUpdate : ParticleEmitterComponent Ieee (Sample.Pose Ieee) :=
  (runCalls env [Call.AddParticle ⟨0, 0, 0⟩ ⟨0, 0, 0⟩, Call.Emit 1, Call.Update clock]
    (emitter ⟨0, 1, 0⟩, Sample.maxStream)).1

/-- An emitter that faces `(0, 0, -1)` and holds three particles at rest, at `(0, 0, 3)`,
`(0, 0, 9)` and `(0, 4, 0)`. -/
def threeParticles : ParticleEmitterComponent Ieee (Sample.Pose Ieee) :=
  { emitter ⟨0, 0, finite (-1)⟩ with
    particles :=
      [{ position := ⟨0, 0, finite 3⟩, velocity := ⟨0, 0, 0⟩, lifetimeSeconds := 0 },
       { position := ⟨0, 0, finite 9⟩, velocity := ⟨0, 0, 0⟩, lifetimeSeconds := 0 },
       { position := ⟨0, finite 4, 0⟩, velocity := ⟨0, 0, 0⟩, lifetimeSeconds := 0 }] }

end Ieee

/-! # Theorems -/

open ParticleEmitterComponent

/-! ## Facts about lists -/

section ListFacts
variable {α : Type}

theorem take_eraseIdx_self (l : List α) : ∀ i, (l.eraseIdx i).take i = l.take i := by
  induction l with
  | nil => intro i; simp
  | cons a l ih =>
    intro i
    cases i with
    | zero => simp
    | succ i => simp [List.eraseIdx, ih]

theorem drop_eraseIdx_self (l : List α) : ∀ i, (l.eraseIdx i).drop i = l.drop (i + 1) := by
  induction l with
  | nil => intro i; simp
  | cons a l ih =>
    intro i
    cases i with
    | zero => simp
    | succ i => simp [List.eraseIdx, ih]

theorem take_succ_set (l : List α) (x : α) :
    ∀ i, i < l.length → (l.set i x).take (i + 1) = l.take i ++ [x] := by
  induction l with
  | nil => intro i h; simp at h
  | cons a l ih =>
    intro i h
    cases i with
    | zero => simp
    | succ i =>
      simp only [List.length_cons, Nat.add_lt_add_iff_right] at h
      simp [List.set, ih i h]

theorem drop_succ_set (l : List α) (x : α) : ∀ i, (l.set i x).drop (i + 1) = l.drop (i + 1) := by
  induction l with
  | nil => intro i; simp
  | cons a l ih =>
    intro i
    cases i with
    | zero => simp
    | succ i => simp [List.set, ih i]

end ListFacts

section Aging
variable {F : Type} [Add F] [Mul F] [LT F] [DecidableRel (LT.lt : F → F → Prop)]

theorem updateLoop_eq_aux (delta lifetime : F) (acceleration : Vec3 F) (n : Nat) :
    ∀ (i : Nat) (particles : List (Particle F)), particles.length - i = n →
      updateLoop delta lifetime acceleration i particles =
        particles.take i ++ (particles.drop i).filterMap (fun p =>
          if p.lifetimeSeconds > lifetime then none
          else some (integrate delta acceleration p)) := by
  induction n with
  | zero =>
    intro i ps h
    have hi : ps.length ≤ i := by omega
    rw [updateLoop, dif_neg (by omega), List.take_of_length_le hi, List.drop_of_length_le hi]
    simp
  | succ n ih =>
    intro i ps h
    have hi : i < ps.length := by omega
    rw [updateLoop, dif_pos hi]
    have hdrop : ps.drop i = ps.get ⟨i, hi⟩ :: ps.drop (i + 1) := by
      exact List.drop_eq_getElem_cons hi
    by_cases hexp : (ps.get ⟨i, hi⟩).lifetimeSeconds > lifetime
    · simp only [hexp, if_true]
      rw [ih i (ps.eraseIdx i) (by rw [List.length_eraseIdx, if_pos hi]; omega)]
      rw [hdrop, List.filterMap_cons, take_eraseIdx_self, drop_eraseIdx_self]
      simp only [hexp, if_true]
    · simp only [hexp, if_false]
      rw [ih (i + 1) _ (by simp; omega)]
      rw [hdrop, List.filterMap_cons, take_succ_set _ _ _ hi, drop_succ_set]
      simp only [hexp, if_false, List.append_assoc, List.singleton_append]

/-- The aging loop run from the start of the pool is a `filterMap`. -/
theorem updateLoop_eq_filterMap (delta lifetime : F) (acceleration : Vec3 F)
    (particles : List (Particle F)) :
    updateLoop delta lifetime acceleration 0 particles =
      particles.filterMap (fun p =>
        if p.lifetimeSeconds > lifetime then none
        else some (integrate delta acceleration p)) := by
  rw [updateLoop_eq_aux delta lifetime acceleration _ 0 particles rfl]
  simp

/-- The aging loop never lengthens the pool. -/
theorem age_count_le {T : Type} (sm : StateManager F) (e : ParticleEmitterComponent F T) :
    (age sm e).GetParticleCount ≤ e.GetParticleCount := by
  simp only [age, GetParticleCount, updateLoop_eq_filterMap]
  exact List.length_filterMap_le _ _

end Aging

section AddParticleFacts
variable {F T : Type} [Add F] [Zero F]

/-- The particle that `AddParticle(p, v)` builds. -/
theorem AddParticle_eq (env : Env F T) (e : ParticleEmitterComponent F T) (p v : Vec3 F) :
    e.AddParticle env p v =
      { e with particles := e.particles ++
          if e.GetParticleCount ≥ env.MAX_PARTICLES then []
          else [{ position := if e.lockedToEntity then p
                              else Vec3.add p (env.tr.GetGlobalPosition e.transform)
                  velocity := v
                  lifetimeSeconds := 0 }] } := by
  unfold AddParticle
  split <;> simp

end AddParticleFacts

section EmitFacts
variable {F T : Type} [Add F] [Sub F] [Mul F] [Div F] [Zero F] [One F] [OfNat F 2] [NatCast F]

/-- One iteration of the loop of `Emit` appends at most one particle, of age 0 and with a
velocity `direction * initialSpeed`, and changes no other field. -/
theorem emitStep_shape (env : Env F T) (forward cross : Vec3 F)
    (e : ParticleEmitterComponent F T) (s : RandStream) :
    ∃ added : List (Particle F),
      (emitStep env forward cross e s).1 = { e with particles := e.particles ++ added } ∧
      ∀ p ∈ added, p.lifetimeSeconds = 0 ∧
        ∃ fAngle cAngle : F,
          p.velocity = Vec3.scale (emitDirection env forward cross fAngle cAngle)
            e.initialSpeed := by
  unfold emitStep
  simp only [AddParticle_eq]
  split
  · exact ⟨[], rfl, by simp⟩
  · refine ⟨[_], rfl, fun p hp => ?_⟩
    rw [List.mem_singleton.1 hp]
    exact ⟨rfl, _, _, rfl⟩

/-- The pool after the loop of `Emit` is the pool before it followed by new particles, each of
age 0 and with a velocity `direction * initialSpeed` for some pair of sampled angles; no other
field of the emitter changes. -/
theorem emitLoop_shape (env : Env F T) (forward cross : Vec3 F) (n : Nat) :
    ∀ (e : ParticleEmitterComponent F T) (s : RandStream),
      ∃ added : List (Particle F),
        (emitLoop env forward cross n e s).1 = { e with particles := e.particles ++ added } ∧
        ∀ p ∈ added, p.lifetimeSeconds = 0 ∧
          ∃ fAngle cAngle : F,
            p.velocity = Vec3.scale (emitDirection env forward cross fAngle cAngle)
              e.initialSpeed := by
  induction n with
  | zero => intro e s; exact ⟨[], by simp [emitLoop], by simp⟩
  | succ n ih =>
    intro e s
    obtain ⟨a1, h1, p1⟩ := emitStep_shape env forward cross e s
    obtain ⟨a2, h2, p2⟩ := ih (emitStep env forward cross e s).1
      (emitStep env forward cross e s).2
    refine ⟨a1 ++ a2, ?_, fun p hp => ?_⟩
    · rw [emitLoop, h2, h1]
      simp
    · rcases List.mem_append.1 hp with hp | hp
      · exact p1 p hp
      · have := p2 p hp
        rw [h1] at this
        exact this

end EmitFacts

/-! ## The pool and its capacity -/

section Counting
variable {F T : Type} [Add F] [Zero F]

theorem AddParticle_count (env : Env F T) (e : ParticleEmitterComponent F T) (p v : Vec3 F) :
    (e.AddParticle env p v).GetParticleCount =
      if e.GetParticleCount ≥ env.MAX_PARTICLES then e.GetParticleCount
      else e.GetParticleCount + 1 := by
  unfold AddParticle GetParticleCount
  split <;> simp

/-- Claim C2. Once the pool holds `MAX_PARTICLES` particles or more, `AddParticle(p, v)` returns
the emitter as it was: the particle list and every other field are unchanged. -/
theorem AddParticle_at_capacity (env : Env F T) (e : ParticleEmitterComponent F T)
    (p v : Vec3 F) (h : e.GetParticleCount ≥ env.MAX_PARTICLES) :
    e.AddParticle env p v = e := by
  unfold AddParticle
  rw [if_pos h]

variable [Sub F] [Mul F] [Div F] [One F] [OfNat F 2] [NatCast F]

theorem emitStep_count (env : Env F T) (forward cross : Vec3 F)
    (e : ParticleEmitterComponent F T) (s : RandStream) :
    (emitStep env forward cross e s).1.GetParticleCount =
      if e.GetParticleCount ≥ env.MAX_PARTICLES then e.GetParticleCount
      else e.GetParticleCount + 1 := by
  unfold emitStep
  exact AddParticle_count env e _ _

theorem emitLoop_count (env : Env F T) (forward cross : Vec3 F) (n : Nat) :
    ∀ (e : ParticleEmitterComponent F T) (s : RandStream),
      e.GetParticleCount ≤ env.MAX_PARTICLES →
      (emitLoop env forward cross n e s).1.GetParticleCount =
        e.GetParticleCount + min n (env.MAX_PARTICLES - e.GetParticleCount) := by
  induction n with
  | zero => intro e s _; simp [emitLoop]
  | succ n ih =>
    intro e s h
    have hstep := emitStep_count env forward cross e s
    rw [emitLoop, ih _ _ (by rw [hstep]; split <;> omega), hstep]
    split <;> omega

variable [DecidableEq F]

/-- Claim C1. For an emitter that holds at most `MAX_PARTICLES` particles, `Emit(n)` leaves
exactly `count + min(n, MAX_PARTICLES - count)` particles in the pool, whatever the random
generator draws. -/
theorem Emit_count (env : Env F T) (e : ParticleEmitterComponent F T) (n : Nat)
    (s : RandStream) (h : e.GetParticleCount ≤ env.MAX_PARTICLES) :
    (e.Emit env n s).1.GetParticleCount =
      e.GetParticleCount + min n (env.MAX_PARTICLES - e.GetParticleCount) := by
  unfold Emit
  exact emitLoop_count env _ _ n e s h

theorem Emit_within_capacity (env : Env F T) (e : ParticleEmitterComponent F T) (n : Nat)
    (s : RandStream) (h : e.GetParticleCount ≤ env.MAX_PARTICLES) :
    (e.Emit env n s).1.GetParticleCount ≤ env.MAX_PARTICLES := by
  unfold Emit
  rw [emitLoop_count env _ _ n e s h]
  omega

end Counting

/-- A pool of capacity two that holds one particle and is asked for five more holds two
particles afterwards. -/
theorem Emit_count_witness :
    (Sample.emitterQ [Sample.particle 0]).GetParticleCount ≤ Sample.envQ.MAX_PARTICLES ∧
    ((Sample.emitterQ [Sample.particle 0]).Emit Sample.envQ 5 Sample.maxStream).1.GetParticleCount
      = 2 :=
  ⟨by decide,
   Emit_count Sample.envQ (Sample.emitterQ [Sample.particle 0]) 5 Sample.maxStream (by decide)⟩

/-- A full pool of capacity two is left as it is by `AddParticle`. -/
theorem AddParticle_at_capacity_witness :
    (Sample.emitterQ [Sample.particle 0, Sample.particle 1]).GetParticleCount
      ≥ Sample.envQ.MAX_PARTICLES ∧
    (Sample.emitterQ [Sample.particle 0, Sample.particle 1]).AddParticle Sample.envQ
        ⟨1, 2, 3⟩ ⟨4, 5, 6⟩
      = Sample.emitterQ [Sample.particle 0, Sample.particle 1] :=
  ⟨by decide,
   AddParticle_at_capacity Sample.envQ _ ⟨1, 2, 3⟩ ⟨4, 5, 6⟩ (by decide)⟩


/-! ## Aging and integration -/

section UpdateFacts
variable {F T : Type} [Add F] [Sub F] [Mul F] [Div F] [Zero F] [One F] [OfNat F 2] [NatCast F]
  [DecidableEq F]

/-- The method `Emit` appends particles of age 0 to the pool and changes no other field. -/
theorem Emit_shape (env : Env F T) (e : ParticleEmitterComponent F T) (n : Nat)
    (s : RandStream) :
    ∃ added : List (Particle F),
      (e.Emit env n s).1 = { e with particles := e.particles ++ added } ∧
      ∀ p ∈ added, p.lifetimeSeconds = 0 := by
  obtain ⟨added, h, hp⟩ := emitLoop_shape env (env.tr.GetForward e.transform)
    (emitCross env (env.tr.GetForward e.transform)) n e s
  exact ⟨added, h, fun p hmem => (hp p hmem).1⟩

variable [LT F] [LE F] [DecidableRel (LT.lt : F → F → Prop)]
  [DecidableRel (LE.le : F → F → Prop)]

/-- The pool after `Update` is the aged pool followed by the particles of the spawn step. -/
theorem Update_particles (env : Env F T) (sm : StateManager F)
    (e : ParticleEmitterComponent F T) (s : RandStream) :
    ∃ spawned : List (Particle F),
      (e.Update env sm s).1.particles =
        e.particles.filterMap (fun p =>
          if p.lifetimeSeconds > e.lifetime then none
          else some (integrate sm.deltaTime e.acceleration p)) ++ spawned ∧
      ∀ p ∈ spawned, p.lifetimeSeconds = 0 := by
  by_cases hc : (age sm e).spawnRate > 0 ∧ sm.globalTime ≥ (age sm e).nextSpawn
  · obtain ⟨added, h, hp⟩ := Emit_shape env
      { age sm e with nextSpawn := sm.globalTime + (age sm e).spawnRate } (age sm e).emitCount s
    refine ⟨added, ?_, hp⟩
    simp only [Update, hc, and_self, if_true]
    rw [h]
    simp [age, updateLoop_eq_filterMap]
  · refine ⟨[], ?_, by simp⟩
    simp only [Update, hc, if_false]
    simp [age, updateLoop_eq_filterMap]

/-- Claim C10. The pool after `Update` starts with one particle for each particle that was not
expired, in order, and that particle is a function of the old particle, the frame delta and the
acceleration alone: velocity `v + delta * a`, position `x + delta * (v + delta * a)` (the new
velocity is the one used), age `t + delta`.  The aging loop treats a pool that is the
concatenation of two pools as it treats the two pools one after the other. -/
theorem Update_integrates (env : Env F T) (sm : StateManager F)
    (e : ParticleEmitterComponent F T) (s : RandStream) :
    (∃ spawned : List (Particle F),
      (e.Update env sm s).1.particles =
        e.particles.filterMap (fun p =>
          if p.lifetimeSeconds > e.lifetime then none
          else some
            { position :=
                ⟨p.position.x + sm.deltaTime * (p.velocity.x + sm.deltaTime * e.acceleration.x),
                 p.position.y + sm.deltaTime * (p.velocity.y + sm.deltaTime * e.acceleration.y),
                 p.position.z + sm.deltaTime * (p.velocity.z + sm.deltaTime * e.acceleration.z)⟩
              velocity :=
                ⟨p.velocity.x + sm.deltaTime * e.acceleration.x,
                 p.velocity.y + sm.deltaTime * e.acceleration.y,
                 p.velocity.z + sm.deltaTime * e.acceleration.z⟩
              lifetimeSeconds := p.lifetimeSeconds + sm.deltaTime }) ++ spawned) ∧
    ∀ ps qs : List (Particle F),
      updateLoop sm.deltaTime e.lifetime e.acceleration 0 (ps ++ qs) =
        updateLoop sm.deltaTime e.lifetime e.acceleration 0 ps ++
          updateLoop sm.deltaTime e.lifetime e.acceleration 0 qs := by
  constructor
  · obtain ⟨spawned, h, _⟩ := Update_particles env sm e s
    exact ⟨spawned, h⟩
  · intro ps qs
    simp only [updateLoop_eq_filterMap, List.filterMap_append]

end UpdateFacts

section Expiry
variable {F T : Type} [LinearOrderedField F]

/-- Claim C3. After `Update` the pool consists of the particles that were in it with an age
`<= lifetime`, in their original order and each advanced by one integration step, followed by
the particles of the spawn step, which have age 0; the particles whose age exceeded the
lifetime are gone. -/
theorem Update_removes_expired (env : Env F T) (sm : StateManager F)
    (e : ParticleEmitterComponent F T) (s : RandStream) :
    ∃ spawned : List (Particle F),
      (e.Update env sm s).1.particles =
        (e.particles.filter (fun p => decide (p.lifetimeSeconds ≤ e.lifetime))).map
          (integrate sm.deltaTime e.acceleration) ++ spawned ∧
      ∀ p ∈ spawned, p.lifetimeSeconds = 0 := by
  obtain ⟨spawned, h, hp⟩ := Update_particles env sm e s
  refine ⟨spawned, ?_, hp⟩
  rw [h]
  congr 1
  induction e.particles with
  | nil => rfl
  | cons p ps ih =>
    by_cases hexp : e.lifetime < p.lifetimeSeconds
    · simp [List.filterMap_cons, List.filter_cons, hexp, not_le.2 hexp, ih]
    · simp [List.filterMap_cons, List.filter_cons, hexp, not_lt.1 hexp, ih]

end Expiry


/-! ## Sorting -/

section SortFacts
variable {α : Type}

theorem sortInsert_perm (comp : α → α → Bool) (x : α) :
    ∀ l : List α, List.Perm (sortInsert comp x l) (x :: l) := by
  intro l
  induction l with
  | nil => exact List.Perm.refl _
  | cons y ys ih =>
    unfold sortInsert
    split
    · exact List.Perm.refl _
    · exact (List.Perm.cons y ih).trans (List.Perm.swap x y ys)

theorem stdSort_perm (comp : α → α → Bool) : ∀ l : List α, List.Perm (stdSort comp l) l := by
  intro l
  induction l with
  | nil => exact List.Perm.refl _
  | cons x xs ih =>
    unfold stdSort
    exact (sortInsert_perm comp x _).trans (List.Perm.cons x ih)

variable {K : Type} [LinearOrder K]

/-- Inserting into a list whose keys descend keeps the keys descending, when the comparator is
"has the greater key". -/
theorem sortInsert_pairwise (key : α → K) (x : α) :
    ∀ l : List α, List.Pairwise (fun a b => key a ≥ key b) l →
      List.Pairwise (fun a b => key a ≥ key b)
        (sortInsert (fun a b => decide (key a > key b)) x l) := by
  intro l
  induction l with
  | nil => intro _; simp [sortInsert]
  | cons y ys ih =>
    intro h
    rw [List.pairwise_cons] at h
    unfold sortInsert
    by_cases hxy : key x > key y
    · simp only [hxy, decide_True, if_true]
      refine List.Pairwise.cons (fun b hb => ?_) (List.Pairwise.cons h.1 h.2)
      rcases List.mem_cons.1 hb with rfl | hb
      · exact le_of_lt hxy
      · exact le_trans (h.1 b hb) (le_of_lt hxy)
    · simp only [hxy, decide_False, Bool.false_eq_true, if_false]
      refine List.Pairwise.cons (fun b hb => ?_) (ih h.2)
      rcases List.mem_cons.1 ((sortInsert_perm _ x ys).subset hb) with rfl | hb
      · exact not_lt.1 hxy
      · exact h.1 b hb

theorem stdSort_pairwise (key : α → K) :
    ∀ l : List α, List.Pairwise (fun a b => key a ≥ key b)
      (stdSort (fun a b => decide (key a > key b)) l) := by
  intro l
  induction l with
  | nil => exact List.Pairwise.nil
  | cons x xs ih =>
    unfold stdSort
    exact sortInsert_pairwise key x _ ih

end SortFacts

section SortClaim
variable {F T : Type} [LinearOrderedField F]

/-- The distance of glm from a position to the camera is the length the comparator of `Sort`
compares. -/
theorem distance_eq_cameraDistance (env : Env F T) (c : Vec3 F) (p : Particle F) :
    Vec3.distance env.glm p.position c = cameraDistance env c p := by
  unfold Vec3.distance cameraDistance Vec3.length
  congr 1
  simp only [Vec3.dot, Vec3.sub]
  ring

/-- Over scalars that form a linear ordered field, after `Sort(cameraPosition)` the pool is a
permutation of the pool before the call and is ordered back to front: of two adjacent particles
the first is at least as far from `c` as the second, where `c` is `cameraPosition` for an
emitter that is not locked to its entity and the first three components of
`inverse(transformation matrix) * (cameraPosition, 1)` for one that is. -/
theorem Sort_in_linear_order (env : Env F T) (e : ParticleEmitterComponent F T)
    (cameraPosition : Vec3 F) :
    List.Perm (e.SortParticles env cameraPosition).particles e.particles ∧
    List.Chain' (fun a b =>
        Vec3.distance env.glm a.position (localCameraPosition env e cameraPosition) ≥
          Vec3.distance env.glm b.position (localCameraPosition env e cameraPosition))
      (e.SortParticles env cameraPosition).particles ∧
    localCameraPosition env e cameraPosition =
      (if e.lockedToEntity then
        ⟨(Mat4.mulVec (env.glm.inverse (env.tr.GetTransformationMatrix e.transform))
            ⟨cameraPosition.x, cameraPosition.y, cameraPosition.z, 1⟩).x,
         (Mat4.mulVec (env.glm.inverse (env.tr.GetTransformationMatrix e.transform))
            ⟨cameraPosition.x, cameraPosition.y, cameraPosition.z, 1⟩).y,
         (Mat4.mulVec (env.glm.inverse (env.tr.GetTransformationMatrix e.transform))
            ⟨cameraPosition.x, cameraPosition.y, cameraPosition.z, 1⟩).z⟩
      else cameraPosition) := by
  refine ⟨stdSort_perm _ _, ?_, rfl⟩
  simp only [distance_eq_cameraDistance]
  exact List.Pairwise.chain'
    (stdSort_pairwise (cameraDistance env (localCameraPosition env e cameraPosition))
      e.particles)

end SortClaim


/-! ## The capacity invariant -/

section Invariant
variable {F T : Type} [Add F] [Sub F] [Mul F] [Div F] [Zero F] [One F] [OfNat F 2] [NatCast F]
  [LT F] [LE F] [DecidableEq F] [DecidableRel (LT.lt : F → F → Prop)]
  [DecidableRel (LE.le : F → F → Prop)]

theorem Update_count_le (env : Env F T) (sm : StateManager F)
    (e : ParticleEmitterComponent F T) (s : RandStream)
    (h : e.GetParticleCount ≤ env.MAX_PARTICLES) :
    (e.Update env sm s).1.GetParticleCount ≤ env.MAX_PARTICLES := by
  have hage := age_count_le sm e
  by_cases hc : (age sm e).spawnRate > 0 ∧ sm.globalTime ≥ (age sm e).nextSpawn
  · simp only [Update, hc, and_self, if_true]
    exact Emit_within_capacity env _ _ s (le_trans hage h)
  · simp only [Update, hc, if_false]
    omega

/-- Every call keeps the pool within its capacity. -/
theorem run_count_le (env : Env F T) (c : Call F T)
    (st : ParticleEmitterComponent F T × RandStream)
    (h : st.1.GetParticleCount ≤ env.MAX_PARTICLES) :
    (c.run env st).1.GetParticleCount ≤ env.MAX_PARTICLES := by
  obtain ⟨e, s⟩ := st
  have h : e.GetParticleCount ≤ env.MAX_PARTICLES := h
  cases c with
  | AddParticle p v =>
    simp only [Call.run, AddParticle_count]
    split <;> omega
  | Emit count =>
    exact Emit_within_capacity env e count s h
  | Update sm => exact Update_count_le env sm e s h
  | SortParticles cameraPosition =>
    simp only [Call.run, ParticleEmitterComponent.SortParticles, GetParticleCount]
    rw [(stdSort_perm _ _).length_eq]
    exact h
  | SetDirections direction =>
    simp only [Call.run, ParticleEmitterComponent.SetDirections, GetParticleCount,
      List.length_map]
    exact h
  | SetEntity entityTransform =>
    exact Emit_within_capacity env _ _ s h
  | SetEmitScale emitScale => exact h
  | SetEmitCount emitCount => exact h
  | SetLifetime lifetime => exact h
  | SetSpawnRate spawnRate => exact h

theorem runCalls_count_le (env : Env F T) (calls : List (Call F T)) :
    ∀ st : ParticleEmitterComponent F T × RandStream,
      st.1.GetParticleCount ≤ env.MAX_PARTICLES →
      (runCalls env calls st).1.GetParticleCount ≤ env.MAX_PARTICLES := by
  induction calls with
  | nil => intro st h; exact h
  | cons c cs ih =>
    intro st h
    exact ih (c.run env st) (run_count_le env c st h)

/-- Claim C9. From a state whose pool holds at most `MAX_PARTICLES` particles, each single call
of `AddParticle`, `Emit`, `Update` (spawn step included), `Sort`, `SetDirections`, `SetEntity`
or of a parameter setter, and each sequence of such calls, leaves at most `MAX_PARTICLES`
particles in the pool; and every state reached by such calls from a newly constructed emitter
holds at most `MAX_PARTICLES` particles. -/
theorem pool_within_capacity (env : Env F T) (st : ParticleEmitterComponent F T × RandStream)
    (h : st.1.GetParticleCount ≤ env.MAX_PARTICLES) :
    (∀ c : Call F T, (c.run env st).1.GetParticleCount ≤ env.MAX_PARTICLES) ∧
    (∀ calls : List (Call F T),
      (runCalls env calls st).1.GetParticleCount ≤ env.MAX_PARTICLES) ∧
    (∀ (sm : StateManager F) (data : EmitterData F T) (calls : List (Call F T)),
      (runCalls env calls (ParticleEmitterComponent.new env sm data, st.2)).1.GetParticleCount
        ≤ env.MAX_PARTICLES) :=
  ⟨fun c => run_count_le env c st h,
   fun calls => runCalls_count_le env calls st h,
   fun _ _ calls => runCalls_count_le env calls _ (Nat.zero_le _)⟩

end Invariant

/-- A full pool of capacity two still holds at most two particles after `Emit(3)`, `Update`
and `Sort`. -/
theorem pool_within_capacity_witness :
    (Sample.emitterQ [Sample.particle 0, Sample.particle 1]).GetParticleCount
      ≤ Sample.envQ.MAX_PARTICLES ∧
    (runCalls Sample.envQ [Call.Emit 3, Call.Update Sample.clock, Call.SortParticles ⟨0, 0, 5⟩]
      (Sample.emitterQ [Sample.particle 0, Sample.particle 1],
        Sample.maxStream)).1.GetParticleCount ≤ 2 :=
  ⟨by decide,
   (pool_within_capacity Sample.envQ
      (Sample.emitterQ [Sample.particle 0, Sample.particle 1], Sample.maxStream)
      (by decide)).2.1 _⟩


/-! ## Vehicle damage -/

section Damage
variable {F : Type} [LinearOrderedField F]

/-- Claim C5. `TakeDamage(damager, d)` sets the health to `max(0, h - d * r)`, which is never
negative; from the declared defaults `health = 1000`, `resistance = 0.5` a damage of 200 leaves
a health of 900. -/
theorem TakeDamage_health {W : Type} (v : VehicleComponent F) (damager : W) (d : F) :
    (v.TakeDamage damager d).health = max 0 (v.health - d * v.resistance) ∧
    0 ≤ (v.TakeDamage damager d).health ∧
    (VehicleComponent.declared : VehicleComponent F).health = 1000 ∧
    (VehicleComponent.declared : VehicleComponent F).resistance = 1 / 2 ∧
    ((VehicleComponent.declared : VehicleComponent F).TakeDamage damager 200).health = 900 := by
  have key : ∀ (u : VehicleComponent F) (x : F),
      (u.TakeDamage damager x).health = max 0 (u.health - x * u.resistance) := by
    intro u x
    simp only [VehicleComponent.TakeDamage]
    split
    · rw [max_eq_left (le_of_lt (by assumption))]
    · rw [max_eq_right (not_lt.1 (by assumption))]
  refine ⟨key v d, ?_, ?_, rfl, ?_⟩
  · rw [key]
    exact le_max_left _ _
  · simp [VehicleComponent.declared]
  · rw [key]
    simp only [VehicleComponent.declared, Nat.cast_ofNat]
    norm_num

end Damage

/-! ## Collider configuration -/

section ColliderClaim
variable {M Q T : Type}

/-- Claim C8. The collider built from a configuration document takes its query filter data from
exactly one of the two setups, chosen by the string under `"QueryFilterType"`: the
drivable-surface setup when that string is `"DrivableSurface"`, which is also the value used
when the key is missing, and the non-drivable-surface setup for every other string.  The
constructor is a total function, and a document without `"CollisionGroup"` yields the group
`"Default"`. -/
theorem Collider_query_filter (env : ColliderEnv M Q T) (data : Document) :
    (Collider.new env data).queryFilterData =
      (if Collider.queryFilterType data = "DrivableSurface" then
        env.setupDrivableSurface env.defaultFilterData
      else env.setupNonDrivableSurface env.defaultFilterData) ∧
    (∀ s : String, data.lookup "QueryFilterType" = some (Json.string s) →
      (Collider.new env data).queryFilterData =
        if s = "DrivableSurface" then env.setupDrivableSurface env.defaultFilterData
        else env.setupNonDrivableSurface env.defaultFilterData) ∧
    (data.lookup "QueryFilterType" = none →
      (Collider.new env data).queryFilterData =
        env.setupDrivableSurface env.defaultFilterData) ∧
    (data.lookup "CollisionGroup" = none → (Collider.new env data).collisionGroup = "Default") := by
  refine ⟨rfl, fun s h => ?_, fun h => ?_, fun h => ?_⟩
  · simp [Collider.new, Collider.queryFilterType, Document.get, GetFromJson, h]
  · simp [Collider.new, Collider.queryFilterType, Document.get, GetFromJson, h]
  · simp [Collider.new, Document.get, GetFromJson, h]

end ColliderClaim

/-- A document that only names a material yields a collider of group `"Default"` to whose
filter data the drivable-surface setup, and no other, was applied. -/
theorem Collider_query_filter_witness :
    (List.lookup "QueryFilterType" [("Material", Json.string "Ice.json")] = none ∧
      List.lookup "CollisionGroup" [("Material", Json.string "Ice.json")] = none) ∧
    (Collider.new Sample.colliderEnv [("Material", Json.string "Ice.json")]).queryFilterData
      = ["drivable"] ∧
    (Collider.new Sample.colliderEnv [("Material", Json.string "Ice.json")]).collisionGroup
      = "Default" :=
  ⟨⟨by simp [List.lookup], by simp [List.lookup]⟩,
   (Collider_query_filter Sample.colliderEnv [("Material", Json.string "Ice.json")]).2.2.1
     (by simp [List.lookup]),
   (Collider_query_filter Sample.colliderEnv [("Material", Json.string "Ice.json")]).2.2.2
     (by simp [List.lookup])⟩


/-! ## The spawn offset -/

section Offset
variable {F T : Type} [LinearOrderedField F]

/-- A draw of `UnitRand` lies in `[0, 1]` when `rand()` returns at most `RAND_MAX`. -/
theorem UnitRand_range (env : Env F T) (s : RandStream) (hmax : 0 < env.RAND_MAX)
    (hs : s 0 ≤ env.RAND_MAX) :
    0 ≤ (UnitRand env s).1 ∧ (UnitRand env s).1 ≤ 1 := by
  have hR : (0 : F) < (env.RAND_MAX : F) := by exact_mod_cast hmax
  simp only [UnitRand, rand]
  refine ⟨div_nonneg (Nat.cast_nonneg _) hR.le, ?_⟩
  rw [div_le_one hR]
  exact_mod_cast hs

/-- A draw of `UnitRandNegative` lies in `[-1, 1]`. -/
theorem UnitRandNegative_range (env : Env F T) (s : RandStream) (hmax : 0 < env.RAND_MAX)
    (hs : s 0 ≤ env.RAND_MAX) :
    -1 ≤ (UnitRandNegative env s).1 ∧ (UnitRandNegative env s).1 ≤ 1 := by
  obtain ⟨h0, h1⟩ := UnitRand_range env s hmax hs
  simp only [UnitRandNegative]
  constructor <;> linarith

/-- Claim C6, amended. With a positive emit scale and draws of `rand()` in `[0, RAND_MAX]`, each
coordinate of the local spawn offset lies within the emit scale, `-sx <= x <= sx` and likewise
for `y` and `z`, so that `(x/sx)^2 + (y/sy)^2 + (z/sz)^2 <= 3`. -/
theorem emitLocalPosition_in_box (env : Env F T) (e : ParticleEmitterComponent F T)
    (s : RandStream) (hmax : 0 < env.RAND_MAX) (hs : ∀ k, s k ≤ env.RAND_MAX)
    (hx : 0 < e.emitScale.x) (hy : 0 < e.emitScale.y) (hz : 0 < e.emitScale.z) :
    (-e.emitScale.x ≤ (emitLocalPosition env e s).1.x ∧
      (emitLocalPosition env e s).1.x ≤ e.emitScale.x) ∧
    (-e.emitScale.y ≤ (emitLocalPosition env e s).1.y ∧
      (emitLocalPosition env e s).1.y ≤ e.emitScale.y) ∧
    (-e.emitScale.z ≤ (emitLocalPosition env e s).1.z ∧
      (emitLocalPosition env e s).1.z ≤ e.emitScale.z) ∧
    ((emitLocalPosition env e s).1.x / e.emitScale.x) ^ 2 +
      ((emitLocalPosition env e s).1.y / e.emitScale.y) ^ 2 +
      ((emitLocalPosition env e s).1.z / e.emitScale.z) ^ 2 ≤ 3 := by
  obtain ⟨a0, a1⟩ := UnitRandNegative_range env s hmax (hs 0)
  obtain ⟨b0, b1⟩ := UnitRandNegative_range env (UnitRandNegative env s).2 hmax (hs 1)
  obtain ⟨c0, c1⟩ := UnitRandNegative_range env
    (UnitRandNegative env (UnitRandNegative env s).2).2 hmax (hs 2)
  have hbox : ∀ sc t : F, 0 < sc → -1 ≤ t → t ≤ 1 →
      (-sc ≤ sc * t ∧ sc * t ≤ sc) ∧ (sc * t / sc) ^ 2 ≤ 1 := by
    intro sc t hsc ht0 ht1
    have h1 : 0 ≤ sc * (t + 1) := mul_nonneg hsc.le (by linarith)
    have h2 : 0 ≤ sc * (1 - t) := mul_nonneg hsc.le (by linarith)
    have h3 : 0 ≤ (t + 1) * (1 - t) := mul_nonneg (by linarith) (by linarith)
    refine ⟨⟨by linarith, by linarith⟩, ?_⟩
    rw [mul_div_cancel_left₀ _ hsc.ne']
    linarith
  have hX := hbox e.emitScale.x _ hx a0 a1
  have hY := hbox e.emitScale.y _ hy b0 b1
  have hZ := hbox e.emitScale.z _ hz c0 c1
  refine ⟨hX.1, hY.1, hZ.1, ?_⟩
  have := hX.2
  have := hY.2
  have := hZ.2
  simp only [emitLocalPosition, Vec3.mul] at *
  linarith

end Offset

/-- Claim C6 fails as stated: with the emit scale `(1, 1, 1)` and every draw of `rand()` equal
to `RAND_MAX` (so that every `UnitRand()` is 1), the spawn offset is the corner `(1, 1, 1)` of
the box, for which `(x/sx)^2 + (y/sy)^2 + (z/sz)^2 = 3 > 1`. -/
theorem emitLocalPosition_outside_ellipsoid :
    (Sample.emitterQ []).emitScale = ⟨1, 1, 1⟩ ∧
    (∀ k, Sample.maxStream k ≤ Sample.envQ.RAND_MAX) ∧
    (UnitRand Sample.envQ Sample.maxStream).1 = 1 ∧
    (emitLocalPosition Sample.envQ (Sample.emitterQ []) Sample.maxStream).1 = ⟨1, 1, 1⟩ ∧
    ¬ (((emitLocalPosition Sample.envQ (Sample.emitterQ []) Sample.maxStream).1.x /
          (Sample.emitterQ []).emitScale.x) ^ 2 +
        ((emitLocalPosition Sample.envQ (Sample.emitterQ []) Sample.maxStream).1.y /
          (Sample.emitterQ []).emitScale.y) ^ 2 +
        ((emitLocalPosition Sample.envQ (Sample.emitterQ []) Sample.maxStream).1.z /
          (Sample.emitterQ []).emitScale.z) ^ 2 ≤ 1) := by
  have hu : ∀ s : RandStream, s 0 = 32767 → (UnitRandNegative Sample.envQ s).1 = 1 := by
    intro s h
    simp only [UnitRandNegative, UnitRand, rand, Sample.envQ, Sample.env, h]
    norm_num
  have hpos : (emitLocalPosition Sample.envQ (Sample.emitterQ []) Sample.maxStream).1
      = ⟨1, 1, 1⟩ := by
    simp only [emitLocalPosition, Vec3.mul]
    rw [hu _ rfl, hu _ rfl, hu _ rfl]
    simp [Sample.emitterQ, Sample.emitter]
  refine ⟨rfl, fun k => le_refl _, ?_, hpos, ?_⟩
  · simp only [UnitRand, rand, Sample.envQ, Sample.env, Sample.maxStream]
    norm_num
  · rw [hpos]
    simp only [Sample.emitterQ, Sample.emitter]
    norm_num

/-- With every draw equal to `RAND_MAX` the first coordinate of the spawn offset of the sample
emitter is at most its emit scale 1. -/
theorem emitLocalPosition_in_box_witness :
    (0 < Sample.envQ.RAND_MAX ∧ (∀ k, Sample.maxStream k ≤ Sample.envQ.RAND_MAX) ∧
      (0 : ℚ) < (Sample.emitterQ []).emitScale.x) ∧
    (emitLocalPosition Sample.envQ (Sample.emitterQ []) Sample.maxStream).1.x ≤ 1 :=
  ⟨⟨by decide, fun _ => le_refl _, by norm_num [Sample.emitterQ, Sample.emitter]⟩,
   (emitLocalPosition_in_box Sample.envQ (Sample.emitterQ []) Sample.maxStream (by decide)
      (fun _ => le_refl _) (by norm_num [Sample.emitterQ, Sample.emitter]) (by norm_num [Sample.emitterQ, Sample.emitter])
      (by norm_num [Sample.emitterQ, Sample.emitter])).1.2⟩


/-! ## The speed of emitted particles -/

section Rotation
variable {F : Type} [LinearOrderedField F]

theorem Quat.normSq_mul (p q : Quat F) :
    (Quat.mul p q).normSq = p.normSq * q.normSq := by
  simp only [Quat.normSq, Quat.mul]
  ring

theorem angleAxis_normSq (m : GlmMath F) (hm : m.Exact) (angle : F) (v : Vec3 F)
    (hv : Vec3.dot v v = 1) : (angleAxis m angle v).normSq = 1 := by
  have h := hm.sin_sq_add_cos_sq (angle * (1 / 2))
  simp only [Vec3.dot] at hv
  simp only [Quat.normSq, angleAxis, Vec3.scale]
  linear_combination h + (m.sin (angle * (1 / 2)) * m.sin (angle * (1 / 2))) * hv

theorem Quat.rotate_dot (q : Quat F) (v : Vec3 F) (hq : q.normSq = 1) :
    Vec3.dot (Quat.rotate q v) (Quat.rotate q v) = Vec3.dot v v := by
  simp only [Quat.normSq] at hq
  simp only [Quat.rotate, Vec3.dot, Vec3.add, Vec3.scale, Vec3.cross]
  linear_combination
    (4 * ((q.x * q.x + q.y * q.y + q.z * q.z) * (v.x * v.x + v.y * v.y + v.z * v.z)
      - (q.x * v.x + q.y * v.y + q.z * v.z) ^ 2)) * hq

theorem sqrt_mul_self_eq (m : GlmMath F) (hm : m.Exact) (s : F) (hs : 0 ≤ s) :
    m.sqrt (s * s) = s := by
  have h0 := hm.sqrt_nonneg (s * s) (mul_self_nonneg s)
  have h1 := hm.sqrt_mul_self (s * s) (mul_self_nonneg s)
  rcases mul_self_eq_mul_self_iff.1 h1 with h | h
  · exact h
  · have : s = 0 := by linarith
    rw [this] at h ⊢
    simpa using h

theorem Vec3.dot_normalize (m : GlmMath F) (hm : m.Exact) (v : Vec3 F)
    (hv : 0 < Vec3.dot v v) :
    Vec3.dot (Vec3.normalize m v) (Vec3.normalize m v) = 1 := by
  have h1 := hm.sqrt_mul_self _ hv.le
  have h2 := hm.inversesqrt_mul_sqrt _ hv
  have key : m.inversesqrt (Vec3.dot v v) * m.inversesqrt (Vec3.dot v v) * Vec3.dot v v = 1 := by
    calc m.inversesqrt (Vec3.dot v v) * m.inversesqrt (Vec3.dot v v) * Vec3.dot v v
        = m.inversesqrt (Vec3.dot v v) * m.inversesqrt (Vec3.dot v v)
            * (m.sqrt (Vec3.dot v v) * m.sqrt (Vec3.dot v v)) := by rw [h1]
      _ = (m.inversesqrt (Vec3.dot v v) * m.sqrt (Vec3.dot v v))
            * (m.inversesqrt (Vec3.dot v v) * m.sqrt (Vec3.dot v v)) := by ring
      _ = 1 := by rw [h2]; ring
  simp only [Vec3.normalize, Vec3.dot, Vec3.scale] at key ⊢
  linear_combination key

theorem Vec3.length_scale (m : GlmMath F) (hm : m.Exact) (d : Vec3 F) (s : F)
    (hd : Vec3.dot d d = 1) (hs : 0 ≤ s) : Vec3.length m (Vec3.scale d s) = s := by
  have : Vec3.dot (Vec3.scale d s) (Vec3.scale d s) = s * s := by
    simp only [Vec3.dot, Vec3.scale] at hd ⊢
    linear_combination (s * s) * hd
  rw [Vec3.length, this, sqrt_mul_self_eq m hm s hs]


theorem Vec3.dot_self_eq_zero (v : Vec3 F) (h : Vec3.dot v v = 0) : v = ⟨0, 0, 0⟩ := by
  obtain ⟨x, y, z⟩ := v
  simp only [Vec3.dot] at h
  have hx : x = 0 := by nlinarith [mul_self_nonneg x, mul_self_nonneg y, mul_self_nonneg z]
  have hy : y = 0 := by nlinarith [mul_self_nonneg x, mul_self_nonneg y, mul_self_nonneg z]
  have hz : z = 0 := by nlinarith [mul_self_nonneg x, mul_self_nonneg y, mul_self_nonneg z]
  rw [hx, hy, hz]

theorem Vec3.dot_self_nonneg (v : Vec3 F) : 0 ≤ Vec3.dot v v := by
  simp only [Vec3.dot]
  nlinarith [mul_self_nonneg v.x, mul_self_nonneg v.y, mul_self_nonneg v.z]

/-- The basis vector `cross` of `Emit` has unit length, provided `RIGHT` has. -/
theorem emitCross_unit {T : Type} (env : Env F T) (hm : env.glm.Exact)
    (hR : Vec3.dot env.tr.RIGHT env.tr.RIGHT = 1) (forward : Vec3 F) :
    Vec3.dot (emitCross env forward) (emitCross env forward) = 1 := by
  unfold emitCross
  by_cases hc : env.glm.abs
      (Vec3.length env.glm (Vec3.normalize env.glm (Vec3.cross env.tr.UP forward))) = 0
  · simp only [hc, if_true]
    exact hR
  · simp only [hc, if_false]
    apply Vec3.dot_normalize env.glm hm
    rcases (Vec3.dot_self_nonneg (Vec3.cross env.tr.UP forward)).lt_or_eq with h | h
    · exact h
    · exfalso
      apply hc
      have hz := Vec3.dot_self_eq_zero _ h.symm
      have h0 : env.glm.sqrt 0 = 0 := by
        have := hm.sqrt_mul_self 0 le_rfl
        exact mul_self_eq_zero.1 this
      rw [hz]
      simp [Vec3.normalize, Vec3.length, Vec3.scale, Vec3.dot, h0, hm.abs_zero]

/-- The direction of an emitted particle has unit length when `forward` and `cross` have. -/
theorem emitDirection_unit {T : Type} (env : Env F T) (hm : env.glm.Exact)
    (forward cross : Vec3 F) (hf : Vec3.dot forward forward = 1)
    (hc : Vec3.dot cross cross = 1) (fAngle cAngle : F) :
    Vec3.dot (emitDirection env forward cross fAngle cAngle)
      (emitDirection env forward cross fAngle cAngle) = 1 := by
  unfold emitDirection
  apply Vec3.dot_normalize env.glm hm
  rw [Quat.rotate_dot _ _ (by
    rw [Quat.normSq_mul, angleAxis_normSq _ hm _ _ hf, angleAxis_normSq _ hm _ _ hc, mul_one]),
    hf]
  exact zero_lt_one

/-- In exact arithmetic, with `RIGHT` a unit vector, every particle that `Emit` adds for an
emitter whose forward axis has unit length and whose `initialSpeed` is non-negative has a
velocity of magnitude `initialSpeed`, whatever angles are sampled.  Floating point follows this
up to rounding, and only where the basis vector of `Emit` is not NaN. -/
theorem Emit_speed_in_exact_arithmetic {T : Type} (env : Env F T) (e : ParticleEmitterComponent F T) (n : Nat)
    (s : RandStream) (hm : env.glm.Exact)
    (hR : Vec3.dot env.tr.RIGHT env.tr.RIGHT = 1)
    (hf : Vec3.dot (env.tr.GetForward e.transform) (env.tr.GetForward e.transform) = 1)
    (hv : 0 ≤ e.initialSpeed) :
    ∃ added : List (Particle F),
      (e.Emit env n s).1.particles = e.particles ++ added ∧
      ∀ p ∈ added, Vec3.length env.glm p.velocity = e.initialSpeed := by
  obtain ⟨added, h, hp⟩ := emitLoop_shape env (env.tr.GetForward e.transform)
    (emitCross env (env.tr.GetForward e.transform)) n e s
  refine ⟨added, by rw [Emit, h], fun p hmem => ?_⟩
  obtain ⟨_, fAngle, cAngle, hvel⟩ := hp p hmem
  rw [hvel]
  exact Vec3.length_scale env.glm hm _ _
    (emitDirection_unit env hm _ _ hf (emitCross_unit env hm hR _) fAngle cAngle) hv

end Rotation

/-- The functions of the real numbers satisfy the laws of exact arithmetic. -/
theorem Sample.math_real_exact :
    (Sample.math Real.sqrt Real.sin Real.cos Real.pi).Exact where
  sqrt_nonneg := fun x _ => Real.sqrt_nonneg x
  sqrt_mul_self := fun _ hx => Real.mul_self_sqrt hx
  inversesqrt_mul_sqrt := fun x hx => by
    simp only [Sample.math]
    exact one_div_mul_cancel (Real.sqrt_pos.2 hx).ne'
  sin_sq_add_cos_sq := fun t => by
    simp only [Sample.math]
    have := Real.sin_sq_add_cos_sq t
    nlinarith [this]
  abs_zero := by simp [Sample.math]

/-- Over the real numbers, the particle emitted by an emitter that faces `(0, 0, -1)` has a
velocity of magnitude 10, the initial speed of the sample emitter. -/
theorem Emit_speed_over_reals :
    ((Sample.math Real.sqrt Real.sin Real.cos Real.pi).Exact ∧
      Vec3.dot (Sample.tr : TransformApi ℝ (Sample.Pose ℝ)).RIGHT
        (Sample.tr : TransformApi ℝ (Sample.Pose ℝ)).RIGHT = 1 ∧
      Vec3.dot (⟨0, 0, -1⟩ : Vec3 ℝ) ⟨0, 0, -1⟩ = 1 ∧
      (0 : ℝ) ≤ (Sample.emitter (⟨0, 0, -1⟩ : Vec3 ℝ) 0 1 []).initialSpeed) ∧
    ∃ added : List (Particle ℝ),
      ((Sample.emitter (⟨0, 0, -1⟩ : Vec3 ℝ) 0 1 []).Emit
        (Sample.env (Sample.math Real.sqrt Real.sin Real.cos Real.pi) 2) 1
        Sample.maxStream).1.particles = [] ++ added ∧
      ∀ p ∈ added,
        Vec3.length (Sample.math Real.sqrt Real.sin Real.cos Real.pi) p.velocity = 10 :=
  ⟨⟨Sample.math_real_exact, by simp [Sample.tr, Vec3.dot], by simp [Vec3.dot],
      by simp [Sample.emitter]⟩,
   Emit_speed_in_exact_arithmetic (Sample.env (Sample.math Real.sqrt Real.sin Real.cos Real.pi) 2)
     (Sample.emitter (⟨0, 0, -1⟩ : Vec3 ℝ) 0 1 []) 1 Sample.maxStream
     Sample.math_real_exact (by simp [Sample.env, Sample.tr, Vec3.dot])
     (by simp [Sample.env, Sample.tr, Sample.emitter, Vec3.dot])
     (by simp [Sample.emitter])⟩

/-! ## The particle that `AddParticle` appends -/

section Append
variable {F T : Type} [Add F] [Zero F] [One F]

/-- Claim C12. Below the capacity, `AddParticle(p, v)` changes the emitter only by appending one
particle at the end of the pool: its age is 0, its velocity is `v`, and its position is `p` for
an emitter locked to its entity and `p + transform.GetGlobalPosition()` otherwise.  The model
matrix matches the frame: the transformation matrix of the emitter when locked (positions are
entity-local), the identity when not (positions are in world space). -/
theorem AddParticle_appends (env : Env F T) (e : ParticleEmitterComponent F T) (p v : Vec3 F)
    (h : e.GetParticleCount < env.MAX_PARTICLES) :
    e.AddParticle env p v =
      { e with particles := e.particles ++
          [{ position :=
               if e.lockedToEntity then p
               else ⟨p.x + (env.tr.GetGlobalPosition e.transform).x,
                     p.y + (env.tr.GetGlobalPosition e.transform).y,
                     p.z + (env.tr.GetGlobalPosition e.transform).z⟩
             velocity := v
             lifetimeSeconds := 0 }] } ∧
    (e.AddParticle env p v).GetParticleCount = e.GetParticleCount + 1 ∧
    e.GetModelMatrix env =
      (if e.lockedToEntity then env.tr.GetTransformationMatrix e.transform
       else Mat4.identity) := by
  have hlt : ¬ e.GetParticleCount ≥ env.MAX_PARTICLES := Nat.not_le.2 h
  refine ⟨?_, ?_, ?_⟩
  · rw [AddParticle_eq, if_neg hlt]
    rfl
  · rw [AddParticle_count, if_neg hlt]
  · unfold GetModelMatrix
    cases e.lockedToEntity <;> rfl

end Append

/-- A pool of capacity two that holds one particle holds two after `AddParticle`, the second
one being the new particle. -/
theorem AddParticle_appends_witness :
    (Sample.emitterQ [Sample.particle 0]).GetParticleCount < Sample.envQ.MAX_PARTICLES ∧
    ((Sample.emitterQ [Sample.particle 0]).AddParticle Sample.envQ
      ⟨1, 2, 3⟩ ⟨4, 5, 6⟩).GetParticleCount = 2 :=
  ⟨by decide,
   (AddParticle_appends Sample.envQ (Sample.emitterQ [Sample.particle 0]) ⟨1, 2, 3⟩ ⟨4, 5, 6⟩
      (by decide)).2.1⟩

/-! ## The basis vector of `Emit` -/

section ExactBasis
variable {F T : Type} [LinearOrderedField F]

/-- In exact arithmetic the test of `Emit` works as meant: when `cross(UP, forward)` is the zero
vector the basis vector is `RIGHT`, and otherwise it is `normalize(cross(UP, forward))`, a unit
vector. -/
theorem emitCross_in_exact_arithmetic (env : Env F T) (hm : env.glm.Exact)
    (habs : env.glm.abs 1 ≠ 0) (forward : Vec3 F) :
    (Vec3.cross env.tr.UP forward = ⟨0, 0, 0⟩ → emitCross env forward = env.tr.RIGHT) ∧
    (Vec3.cross env.tr.UP forward ≠ ⟨0, 0, 0⟩ →
      emitCross env forward = Vec3.normalize env.glm (Vec3.cross env.tr.UP forward) ∧
      Vec3.dot (emitCross env forward) (emitCross env forward) = 1) := by
  have h0 : env.glm.sqrt 0 = 0 := mul_self_eq_zero.1 (hm.sqrt_mul_self 0 le_rfl)
  have h1 : env.glm.sqrt 1 = 1 := by
    have := sqrt_mul_self_eq env.glm hm 1 zero_le_one
    rwa [mul_one] at this
  constructor
  · intro h
    unfold emitCross
    rw [h]
    simp [Vec3.normalize, Vec3.length, Vec3.scale, Vec3.dot, h0, hm.abs_zero]
  · intro h
    have hpos : 0 < Vec3.dot (Vec3.cross env.tr.UP forward) (Vec3.cross env.tr.UP forward) := by
      rcases (Vec3.dot_self_nonneg (Vec3.cross env.tr.UP forward)).lt_or_eq with hlt | heq
      · exact hlt
      · exact absurd (Vec3.dot_self_eq_zero _ heq.symm) h
    have hunit := Vec3.dot_normalize env.glm hm _ hpos
    have hcross : emitCross env forward =
        Vec3.normalize env.glm (Vec3.cross env.tr.UP forward) := by
      unfold emitCross
      simp only [Vec3.length, hunit, h1, habs, if_false]
    rw [hcross]
    exact ⟨rfl, hunit⟩

end ExactBasis

/-- With the arithmetic of IEEE 754 the test of `Emit` never succeeds on a zero cross product:
`normalize` turns the zero vector into `0 * inversesqrt(0) = 0 * inf = NaN`, the length of the
result is NaN, and `abs(NaN) == 0` is false. -/
theorem emitCross_of_zero_cross (tr : TransformApi Ieee (Sample.Pose Ieee)) (maxParticles : Nat)
    (forward : Vec3 Ieee) (h : Vec3.cross tr.UP forward = ⟨0, 0, 0⟩) :
    emitCross { glm := Ieee.math, tr := tr, MAX_PARTICLES := maxParticles, RAND_MAX := 32767 }
      forward = ⟨Ieee.nan, Ieee.nan, Ieee.nan⟩ := by
  have hn : Vec3.normalize Ieee.math (⟨0, 0, 0⟩ : Vec3 Ieee) = ⟨Ieee.nan, Ieee.nan, Ieee.nan⟩ := by
    decide!
  have hl : Ieee.math.abs (Vec3.length Ieee.math ⟨Ieee.nan, Ieee.nan, Ieee.nan⟩) = Ieee.nan := by
    decide!
  have hne : Ieee.nan ≠ (0 : Ieee) := by decide!
  unfold emitCross
  simp only [h, hn, hl, hne, if_false]

/-- Claim C11, at the forward axis `(0, 1, 0) = UP` under the arithmetic of IEEE 754: the cross
product `cross(UP, forward)` is the zero vector, yet the basis vector that `Emit` uses is
`(NaN, NaN, NaN)` and not `RIGHT`, and the particle that `Emit(1)` adds has the velocity
`(NaN, NaN, NaN)`; for the forward axis `(0, 0, -1)` the basis vector is the unit vector
`(-1, 0, 0)`. -/
theorem Emit_basis_for_parallel_forward :
    Vec3.cross Ieee.env.tr.UP (Ieee.env.tr.GetForward (Ieee.emitter ⟨0, 1, 0⟩).transform)
      = ⟨0, 0, 0⟩ ∧
    emitCross Ieee.env (Ieee.env.tr.GetForward (Ieee.emitter ⟨0, 1, 0⟩).transform)
      = ⟨Ieee.nan, Ieee.nan, Ieee.nan⟩ ∧
    emitCross Ieee.env (Ieee.env.tr.GetForward (Ieee.emitter ⟨0, 1, 0⟩).transform)
      ≠ Ieee.env.tr.RIGHT ∧
    (((Ieee.emitter ⟨0, 1, 0⟩).Emit Ieee.env 1 Sample.maxStream).1.particles.map
      fun p => p.velocity) = [⟨Ieee.nan, Ieee.nan, Ieee.nan⟩] ∧
    emitCross Ieee.env ⟨0, 0, Ieee.finite (-1)⟩ = ⟨Ieee.finite (-1), 0, 0⟩ := by
  refine ⟨by decide!, by decide!, by decide!, by decide!, by decide!⟩

/-! ## Sorting a pool of floats -/

section ChainFacts
variable {α K : Type} [LT K] [LE K] [DecidableRel (LT.lt : K → K → Prop)]

/-- The first element of a list after an insertion is the inserted element or the former first
element. -/
theorem sortInsert_head (comp : α → α → Bool) (x : α) (l : List α) :
    (sortInsert comp x l).head? = some x ∨ (sortInsert comp x l).head? = l.head? := by
  cases l with
  | nil => exact Or.inl rfl
  | cons y ys =>
    unfold sortInsert
    split
    · exact Or.inl rfl
    · exact Or.inr rfl

/-- Inserting `x` into a list whose adjacent keys descend keeps them descending, when the keys
of the list compare with the key of `x`: a smaller key is also a smaller-or-equal key, and a
key that is not greater is smaller or equal. -/
theorem sortInsert_chain (key : α → K) (x : α) :
    ∀ l : List α,
      (∀ y ∈ l, key y < key x → key y ≤ key x) →
      (∀ y ∈ l, ¬ key y < key x → key x ≤ key y) →
      List.Chain' (fun a b => key a ≥ key b) l →
      List.Chain' (fun a b => key a ≥ key b)
        (sortInsert (fun a b => decide (key a > key b)) x l) := by
  intro l
  induction l with
  | nil => intro _ _ _; simp [sortInsert]
  | cons y ys ih =>
    intro h1 h2 hc
    unfold sortInsert
    by_cases hxy : key x > key y
    · simp only [hxy, decide_True, if_true]
      exact List.Chain'.cons (h1 y (List.mem_cons_self y ys) hxy) hc
    · simp only [hxy, decide_False, Bool.false_eq_true, if_false]
      rw [List.chain'_cons'] at hc ⊢
      refine ⟨fun z hz => ?_, ih (fun w hw => h1 w (List.mem_cons_of_mem y hw))
        (fun w hw => h2 w (List.mem_cons_of_mem y hw)) hc.2⟩
      rcases sortInsert_head (fun a b => decide (key a > key b)) x ys with hh | hh
      · rw [hh] at hz
        cases Option.mem_some_iff.1 hz
        exact h2 y (List.mem_cons_self y ys) hxy
      · rw [hh] at hz
        exact hc.1 z hz

/-- Sorting makes the adjacent keys descend, when the keys of the list compare with one
another. -/
theorem stdSort_chain (key : α → K) :
    ∀ l : List α,
      (∀ a ∈ l, ∀ b ∈ l, key b < key a → key b ≤ key a) →
      (∀ a ∈ l, ∀ b ∈ l, ¬ key b < key a → key a ≤ key b) →
      List.Chain' (fun a b => key a ≥ key b)
        (stdSort (fun a b => decide (key a > key b)) l) := by
  intro l
  induction l with
  | nil => intro _ _; exact List.chain'_nil
  | cons x xs ih =>
    intro h1 h2
    unfold stdSort
    have hsub : ∀ y ∈ stdSort (fun a b => decide (key a > key b)) xs, y ∈ x :: xs :=
      fun y hy => List.mem_cons_of_mem x ((stdSort_perm _ xs).subset hy)
    exact sortInsert_chain key x _
      (fun y hy => h1 x (List.mem_cons_self x xs) y (hsub y hy))
      (fun y hy => h2 x (List.mem_cons_self x xs) y (hsub y hy))
      (ih (fun a ha b hb => h1 a (List.mem_cons_of_mem x ha) b (List.mem_cons_of_mem x hb))
        (fun a ha b hb => h2 a (List.mem_cons_of_mem x ha) b (List.mem_cons_of_mem x hb)))

end ChainFacts

/-- A float that is smaller than another is also smaller or equal. -/
theorem Ieee.le_of_lt (a b : Ieee) (h : a < b) : a ≤ b := by
  have h' : Ieee.blt a b = true := h
  show Ieee.ble a b = true
  cases a <;> cases b <;> simp only [Ieee.blt, Ieee.ble, decide_eq_true_eq] at h' ⊢ <;>
    first
      | exact h'.le
      | exact absurd h' (by simp)

/-- Of two floats that are not NaN, one that is not smaller than the other is greater or
equal. -/
theorem Ieee.le_of_not_lt (a b : Ieee) (ha : a ≠ Ieee.nan) (hb : b ≠ Ieee.nan)
    (h : ¬ a < b) : b ≤ a := by
  have h' : ¬ Ieee.blt a b = true := h
  show Ieee.ble b a = true
  cases a <;> cases b <;> simp only [Ieee.blt, Ieee.ble, decide_eq_true_eq] at h' ⊢ <;>
    first
      | exact not_lt.1 h'
      | exact absurd rfl ha
      | exact absurd rfl hb
      | exact absurd trivial h'

/-- A comparison `<=` of floats holds of no NaN. -/
theorem Ieee.ne_nan_of_le (a b : Ieee) (h : a ≤ b) : a ≠ Ieee.nan ∧ b ≠ Ieee.nan := by
  have h' : Ieee.ble a b = true := h
  cases a <;> cases b <;> simp only [Ieee.ble] at h' <;>
    first
      | exact Bool.noConfusion h'
      | exact ⟨Ieee.noConfusion, Ieee.noConfusion⟩

/-- The square of a difference of floats does not depend on the order of the two. -/
theorem Ieee.sub_mul_self (a b : Ieee) : (a - b) * (a - b) = (b - a) * (b - a) := by
  show Ieee.mul (Ieee.add a (Ieee.neg b)) (Ieee.add a (Ieee.neg b)) =
    Ieee.mul (Ieee.add b (Ieee.neg a)) (Ieee.add b (Ieee.neg a))
  cases a <;> cases b <;> simp only [Ieee.add, Ieee.neg, Ieee.mul]
  congr 1
  ring

section FloatSort
variable {T : Type}

/-- On floats too, the distance of glm from a position to the camera is the length the
comparator of `Sort` compares. -/
theorem distance_eq_cameraDistance_float (env : Env Ieee T) (c : Vec3 Ieee) (p : Particle Ieee) :
    Vec3.distance env.glm p.position c = cameraDistance env c p := by
  unfold Vec3.distance cameraDistance Vec3.length
  simp only [Vec3.dot, Vec3.sub]
  rw [Ieee.sub_mul_self c.x, Ieee.sub_mul_self c.y, Ieee.sub_mul_self c.z]

/-- Claim C4, amended. On floats, for every pool in which no particle has a NaN distance to `c`,
after `Sort(cameraPosition)` the pool is a permutation of the pool before the call and is
ordered back to front: of two adjacent particles the first is at least as far from `c` as the
second, where `c` is `cameraPosition` for an emitter that is not locked to its entity and the
first three components of `inverse(transformation matrix) * (cameraPosition, 1)` for one that
is. -/
theorem Sort_back_to_front_without_nan (env : Env Ieee T)
    (e : ParticleEmitterComponent Ieee T) (cameraPosition : Vec3 Ieee)
    (h : ∀ p ∈ e.particles,
      Vec3.distance env.glm p.position (localCameraPosition env e cameraPosition) ≠ Ieee.nan) :
    List.Perm (e.SortParticles env cameraPosition).particles e.particles ∧
    List.Chain' (fun a b =>
        Vec3.distance env.glm a.position (localCameraPosition env e cameraPosition) ≥
          Vec3.distance env.glm b.position (localCameraPosition env e cameraPosition))
      (e.SortParticles env cameraPosition).particles ∧
    localCameraPosition env e cameraPosition =
      (if e.lockedToEntity then
        ⟨(Mat4.mulVec (env.glm.inverse (env.tr.GetTransformationMatrix e.transform))
            ⟨cameraPosition.x, cameraPosition.y, cameraPosition.z, 1⟩).x,
         (Mat4.mulVec (env.glm.inverse (env.tr.GetTransformationMatrix e.transform))
            ⟨cameraPosition.x, cameraPosition.y, cameraPosition.z, 1⟩).y,
         (Mat4.mulVec (env.glm.inverse (env.tr.GetTransformationMatrix e.transform))
            ⟨cameraPosition.x, cameraPosition.y, cameraPosition.z, 1⟩).z⟩
      else cameraPosition) := by
  refine ⟨stdSort_perm _ _, ?_, rfl⟩
  simp only [distance_eq_cameraDistance_float] at h ⊢
  exact stdSort_chain (cameraDistance env (localCameraPosition env e cameraPosition))
    e.particles
    (fun a _ b _ hlt => Ieee.le_of_lt _ _ hlt)
    (fun a ha b hb hnlt => Ieee.le_of_not_lt _ _ (h b hb) (h a ha) hnlt)

end FloatSort

/-- The pool of three particles at distances 3, 9 and 4 from the camera at the origin is sorted
to the distances 9, 4, 3. -/
theorem Sort_back_to_front_without_nan_witness :
    (∀ p ∈ Ieee.threeParticles.particles,
      Vec3.distance Ieee.env.glm p.position
        (localCameraPosition Ieee.env Ieee.threeParticles ⟨0, 0, 0⟩) ≠ Ieee.nan) ∧
    (Ieee.threeParticles.SortParticles Ieee.env ⟨0, 0, 0⟩).particles.map
        (fun p => p.position) =
      [⟨0, 0, Ieee.finite 9⟩, ⟨0, Ieee.finite 4, 0⟩, ⟨0, 0, Ieee.finite 3⟩] ∧
    List.Chain' (fun a b =>
        Vec3.distance Ieee.env.glm a.position
            (localCameraPosition Ieee.env Ieee.threeParticles ⟨0, 0, 0⟩) ≥
          Vec3.distance Ieee.env.glm b.position
            (localCameraPosition Ieee.env Ieee.threeParticles ⟨0, 0, 0⟩))
      (Ieee.threeParticles.SortParticles Ieee.env ⟨0, 0, 0⟩).particles :=
  ⟨by decide!, by decide!,
   (Sort_back_to_front_without_nan Ieee.env Ieee.threeParticles ⟨0, 0, 0⟩ (by decide!)).2.1⟩

/-- Claim C4 fails as stated on floats.  The emitter that faces `(0, 1, 0)` holds, after
`AddParticle`, `Emit(1)` and `Update()`, a particle at `(0, -10, 0)` and a particle whose
position is `(NaN, NaN, NaN)`; after `Sort` with the camera at `(0, 0, 5)` the NaN particle
comes first and the pool is not ordered back to front, and no permutation of the pool is,
since no comparison with a NaN distance holds. -/
theorem Sort_nan_pool_unordered :
    Ieee.upwardAfterUpdate.particles.map (fun p => p.position) =
      [⟨0, Ieee.finite (-10), 0⟩, ⟨Ieee.nan, Ieee.nan, Ieee.nan⟩] ∧
    ¬ List.Chain' (fun a b =>
        Vec3.distance Ieee.env.glm a.position
            (localCameraPosition Ieee.env Ieee.upwardAfterUpdate ⟨0, 0, Ieee.finite 5⟩) ≥
          Vec3.distance Ieee.env.glm b.position
            (localCameraPosition Ieee.env Ieee.upwardAfterUpdate ⟨0, 0, Ieee.finite 5⟩))
      (Ieee.upwardAfterUpdate.SortParticles Ieee.env ⟨0, 0, Ieee.finite 5⟩).particles ∧
    ∀ l : List (Particle Ieee), List.Perm l Ieee.upwardAfterUpdate.particles →
      ¬ List.Chain' (fun a b =>
        Vec3.distance Ieee.env.glm a.position
            (localCameraPosition Ieee.env Ieee.upwardAfterUpdate ⟨0, 0, Ieee.finite 5⟩) ≥
          Vec3.distance Ieee.env.glm b.position
            (localCameraPosition Ieee.env Ieee.upwardAfterUpdate ⟨0, 0, Ieee.finite 5⟩)) l := by
  have hall : ∀ l : List (Particle Ieee), List.Perm l Ieee.upwardAfterUpdate.particles →
      ¬ List.Chain' (fun a b =>
        Vec3.distance Ieee.env.glm a.position
            (localCameraPosition Ieee.env Ieee.upwardAfterUpdate ⟨0, 0, Ieee.finite 5⟩) ≥
          Vec3.distance Ieee.env.glm b.position
            (localCameraPosition Ieee.env Ieee.upwardAfterUpdate ⟨0, 0, Ieee.finite 5⟩)) l := by
    intro l hl hc
    have hlen : l.length = 2 := by
      rw [hl.length_eq]
      decide!
    obtain ⟨x, y, rfl⟩ := List.length_eq_two.1 hlen
    have hnan : ∃ p ∈ Ieee.upwardAfterUpdate.particles,
        Vec3.distance Ieee.env.glm p.position
          (localCameraPosition Ieee.env Ieee.upwardAfterUpdate ⟨0, 0, Ieee.finite 5⟩)
          = Ieee.nan := by decide!
    obtain ⟨p, hp, hd⟩ := hnan
    have hxy := Ieee.ne_nan_of_le _ _ (List.chain'_cons.1 hc).1
    rcases List.mem_pair.1 (hl.symm.subset hp) with rfl | rfl
    · exact hxy.2 hd
    · exact hxy.1 hd
  exact ⟨by decide!, hall _ (stdSort_perm _ _), hall⟩

/-! ## The speed of particles emitted along `UP` -/

theorem Ieee.nan_mul (x : Ieee) : Ieee.nan * x = Ieee.nan := by
  cases x <;> rfl

theorem Ieee.mul_nan (x : Ieee) : x * Ieee.nan = Ieee.nan := by
  cases x <;> rfl

theorem Ieee.nan_add (x : Ieee) : Ieee.nan + x = Ieee.nan := by
  cases x <;> rfl

theorem Ieee.add_nan (x : Ieee) : x + Ieee.nan = Ieee.nan := by
  cases x <;> rfl

theorem Ieee.nan_sub (x : Ieee) : Ieee.nan - x = Ieee.nan := by
  cases x <;> rfl

theorem Ieee.sub_nan (x : Ieee) : x - Ieee.nan = Ieee.nan := by
  cases x <;> rfl

/-- With a NaN basis vector the direction of an emitted particle is NaN, whatever the forward
axis and the sampled angles are. -/
theorem emitDirection_of_nan_cross {T : Type} (env : Env Ieee T) (forward : Vec3 Ieee)
    (fAngle cAngle : Ieee) :
    emitDirection env forward ⟨Ieee.nan, Ieee.nan, Ieee.nan⟩ fAngle cAngle =
      ⟨Ieee.nan, Ieee.nan, Ieee.nan⟩ := by
  simp only [emitDirection, angleAxis, Quat.mul, Quat.rotate, Vec3.normalize, Vec3.scale,
    Vec3.add, Vec3.cross, Ieee.nan_mul, Ieee.mul_nan, Ieee.nan_add, Ieee.add_nan, Ieee.nan_sub,
    Ieee.sub_nan]

/-- Claim C7, at the forward axis `(0, 1, 0) = UP` on floats: the forward axis is not zero and
`initialSpeed = 10` is not negative, yet every particle that `Emit` adds, whatever `rand()`
draws, has a velocity whose magnitude is NaN and not `initialSpeed`, because the basis vector
of `Emit` is NaN there; `Emit(n)` adds `min(n, 2)` such particles to the empty pool of
capacity two. -/
theorem Emit_speed_for_parallel_forward :
    Ieee.env.tr.GetForward (Ieee.emitter ⟨0, 1, 0⟩).transform ≠ ⟨0, 0, 0⟩ ∧
    (0 : Ieee) ≤ (Ieee.emitter ⟨0, 1, 0⟩).initialSpeed ∧
    (((Ieee.emitter ⟨0, 1, 0⟩).Emit Ieee.env 1 Sample.maxStream).1.particles.map
      fun p => Vec3.length Ieee.env.glm p.velocity) = [Ieee.nan] ∧
    ∀ (n : Nat) (s : RandStream), ∃ added : List (Particle Ieee),
      ((Ieee.emitter ⟨0, 1, 0⟩).Emit Ieee.env n s).1.particles = added ∧
      added.length = min n 2 ∧
      ∀ p ∈ added,
        Vec3.length Ieee.env.glm p.velocity = Ieee.nan ∧
        Vec3.length Ieee.env.glm p.velocity ≠ (Ieee.emitter ⟨0, 1, 0⟩).initialSpeed := by
  refine ⟨by decide!, by decide!, by decide!, fun n s => ?_⟩
  have hcross : emitCross Ieee.env (Ieee.env.tr.GetForward (Ieee.emitter ⟨0, 1, 0⟩).transform)
      = ⟨Ieee.nan, Ieee.nan, Ieee.nan⟩ :=
    emitCross_of_zero_cross Ieee.tr 2 _ (by decide!)
  obtain ⟨added, h, hp⟩ := emitLoop_shape Ieee.env
    (Ieee.env.tr.GetForward (Ieee.emitter ⟨0, 1, 0⟩).transform)
    (emitCross Ieee.env (Ieee.env.tr.GetForward (Ieee.emitter ⟨0, 1, 0⟩).transform)) n
    (Ieee.emitter ⟨0, 1, 0⟩) s
  have hcount := emitLoop_count Ieee.env
    (Ieee.env.tr.GetForward (Ieee.emitter ⟨0, 1, 0⟩).transform)
    (emitCross Ieee.env (Ieee.env.tr.GetForward (Ieee.emitter ⟨0, 1, 0⟩).transform)) n
    (Ieee.emitter ⟨0, 1, 0⟩) s (Nat.zero_le _)
  refine ⟨added, ?_, ?_, fun p hmem => ?_⟩
  · rw [Emit, h]
    rfl
  · rw [h] at hcount
    simpa [GetParticleCount, Ieee.emitter, Ieee.env] using hcount
  · obtain ⟨_, fAngle, cAngle, hvel⟩ := hp p hmem
    have hv : p.velocity = ⟨Ieee.nan, Ieee.nan, Ieee.nan⟩ := by
      rw [hvel, hcross, emitDirection_of_nan_cross]
      simp only [Vec3.scale, Ieee.nan_mul]
    rw [hv]
    exact ⟨by decide!, by decide!⟩

end CarWars
